import Mathlib

/-!
Kiali traffic-graph appenders: dead-node pruning and the 3scale paired create.

A shallow embedding of

* `graph/telemetry/istio/appender/dead_node.go` (`DeadNodeAppender.AppendGraph`,
  `DeadNodeAppender.applyDeadNodes`), and
* `business/threescale.go` (`GetThreeScaleInfo`, `CreateThreeScaleHandler`,
  `DeleteThreeScaleHandler`, `generateJsonHandlerInstance`, `generateJsonRule`,
  `UpdateThreeScaleRule`, `DeleteThreeScaleRule`).

Go maps are association lists with pairwise distinct keys; the order in which a
`range` loop visits the keys is an explicit argument of the embedding, so that
every statement below holds for every iteration order the Go runtime may pick.
Pointers to nodes are replaced by their map key: updating a node through its
pointer becomes replacing the entry stored under that key. A Go panic (a failed
type assertion, `graph.CheckError` on an error) is an outcome of its own, and
the `for` loop of `AppendGraph` runs on fuel, so that its termination is a
theorem and not a property of the embedding.
-/

namespace graph

/-- A Go `float64`: a finite value `mant * 2 ^ exp`, an infinity, or a NaN. -/
inductive Float64 where
  | finite (mant : Int) (exp : Int)
  | inf (negative : Bool)
  | nan
  deriving DecidableEq, Repr

/-- The Go comparison `f > 0` on a `float64` (false for NaN). -/
def Float64.gtZero : Float64 → Bool
  | .finite mant _ => decide (0 < mant)
  | .inf negative => !negative
  | .nan => false

/-- A dynamically typed Go value (`interface{}`) stored in a metadata map. -/
inductive Value where
  | float64 (f : Float64)
  | bool (b : Bool)
  | string (s : String)
  deriving DecidableEq, Repr

/-- Metadata is `map[string]interface{}`: the first entry for a key is its value. -/
abbrev Metadata := List (String × Value)

/-- The Go lookup `md[key]` with its comma-ok flag: `none` when the key is absent. -/
def Metadata.get? (md : Metadata) (key : String) : Option Value :=
  md.lookup key

/-- The Go assignment `md[key] = v`: overwrite the entry in place, or add one. -/
def Metadata.set (key : String) (v : Value) : Metadata → Metadata
  | [] => [(key, v)]
  | (k, w) :: rest =>
    if k = key then (key, v) :: rest else (k, w) :: Metadata.set key v rest

/-- The node types of the data model. -/
inductive NodeType where
  | App
  | VersionedApp
  | Workload
  | Service
  | Aggregate
  | Unknown
  deriving DecidableEq, Repr

/-- An outgoing edge; `Dest` holds the ID of the destination node (`e.Dest.ID`). -/
structure Edge where
  Dest : String
  Metadata : Metadata
  deriving DecidableEq, Repr

/-- A graph node. Its metadata map is allocated when the node is created, so
that writing a key into it cannot fail. -/
structure Node where
  ID : String
  NodeType : NodeType
  Namespace : String
  Workload : String
  App : String
  Version : String
  Service : String
  Edges : List Edge
  Metadata : Metadata
  deriving DecidableEq, Repr

/-- TrafficMap is `map[string]*Node`, kept as a list of (key, node) entries. -/
abbrev TrafficMap := List (String × Node)

/-- The keys of the map, in entry order. -/
def TrafficMap.keys (tm : TrafficMap) : List String :=
  tm.map Prod.fst

/-- The Go lookup `trafficMap[id]` with its comma-ok flag. -/
def TrafficMap.get? (tm : TrafficMap) (id : String) : Option Node :=
  tm.lookup id

/-- The Go statement `delete(trafficMap, id)`. -/
def TrafficMap.delete (tm : TrafficMap) (id : String) : TrafficMap :=
  tm.filter (fun kv => decide (kv.1 ≠ id))

/-- Store `n` under the existing key `id`: the effect of writing a field of the
node through the pointer held by the map. -/
def TrafficMap.store (id : String) (n : Node) : TrafficMap → TrafficMap
  | [] => []
  | (k, m) :: rest =>
    if k = id then (k, n) :: rest else (k, m) :: TrafficMap.store id n rest

/-- A Go map has pairwise distinct keys. -/
def TrafficMap.WF (tm : TrafficMap) : Prop :=
  tm.keys.Nodup

instance (tm : TrafficMap) : Decidable tm.WF :=
  inferInstanceAs (Decidable (List.Nodup _))

/-- One rate of a protocol: the metadata key and whether it is an inbound or an
outbound node rate. -/
structure Rate where
  Name : String
  IsIn : Bool
  IsOut : Bool
  deriving DecidableEq, Repr

/-- A protocol with the node rates it defines. -/
structure Protocol where
  Name : String
  NodeRates : List Rate
  deriving DecidableEq, Repr

/-- The declarations of package `graph` that `dead_node.go` reads: the protocol
table, the `IsOK` test on identity strings and three metadata keys. They are
declared outside the embedded files and are taken as a parameter. -/
structure Pkg where
  Protocols : List Protocol
  IsOK : String → Bool
  IsDead : String
  IsServiceEntry : String
  IsEgressCluster : String

end graph

namespace models

/-- One entry of the workload list: its name and the number of its pods. -/
structure WorkloadListItem where
  Name : String
  PodCount : Nat
  deriving DecidableEq, Repr

/-- The workload list of a namespace. -/
structure WorkloadList where
  Namespace : String
  Workloads : List WorkloadListItem
  deriving DecidableEq, Repr

end models

namespace graph

/-- The per-namespace context: the namespace and the `Vendor` cache slot that
holds the workload list once it has been fetched. -/
structure AppenderNamespaceInfo where
  Namespace : String
  VendorWorkloadList : Option models.WorkloadList
  deriving DecidableEq, Repr

/-- The request context: the answer of `Business.Workload.GetWorkloadList` for a
namespace, either the list or an error message. -/
structure AppenderGlobalInfo where
  GetWorkloadList : String → Except String models.WorkloadList

end graph

namespace appender

open graph

/-- The helper `getWorkloadList`: the cached workload list, `none` when the
cache slot is empty (a nil pointer in the source). -/
def getWorkloadList (namespaceInfo : AppenderNamespaceInfo) : Option models.WorkloadList :=
  namespaceInfo.VendorWorkloadList

/-- Modelled from the spec: the helper `getWorkload` is declared outside the
embedded files. It resolves the node's workload name against the namespace's
cached workload list and answers the first entry of that name, if any.
`AppendGraph` fills the cache before the first pass; with an empty cache there
is nothing to find. -/
def getWorkload (workloadName : String) (namespaceInfo : AppenderNamespaceInfo) :
    Option models.WorkloadListItem :=
  match getWorkloadList namespaceInfo with
  | none => none
  | some wl => wl.Workloads.find? (fun w => decide (w.Name = workloadName))

/-- The inner loop `for _, r := range p.NodeRates` of the traffic test. `some true`
when a rate above zero was met (`break DefaultCase`), `some false` when the loop
ran to its end, `none` when the assertion `rate.(float64)` panicked. -/
def rateLoop (md : Metadata) : List Rate → Option Bool
  | [] => some false
  | r :: rs =>
    if r.IsIn || r.IsOut then
      match md.get? r.Name with
      | some (.float64 rate) => if rate.gtZero then some true else rateLoop md rs
      | some _ => none
      | none => rateLoop md rs
    else rateLoop md rs

/-- The labelled loop `DefaultCase: for _, p := range graph.Protocols`. -/
def protocolLoop (md : Metadata) : List Protocol → Option Bool
  | [] => some false
  | p :: ps =>
    match rateLoop md p.NodeRates with
    | none => none
    | some true => some true
    | some false => protocolLoop md ps

/-- The body of the first loop of `applyDeadNodes` for the entry `(id, n)`, on
the state `(trafficMap, numRemoved)`; `none` is a panic. -/
def visitNode (g : Pkg) (namespaceInfo : AppenderNamespaceInfo) (id : String) (n : Node)
    (st : TrafficMap × Nat) : Option (TrafficMap × Nat) :=
  match protocolLoop n.Metadata g.Protocols with
  | none => none
  | some true => some st
  | some false =>
    match n.NodeType with
    | .Aggregate => some st
    | .Service =>
      if n.Edges.length > 0 then some st
      else if (n.Metadata.get? g.IsServiceEntry).isSome then some st
      else if (n.Metadata.get? g.IsEgressCluster).isSome then some st
      else some (st.1.delete id, st.2 + 1)
    | _ =>
      if n.NodeType != .Unknown && !g.IsOK n.Workload then some st
      else
        match getWorkload n.Workload namespaceInfo with
        | none => some (st.1.delete id, st.2 + 1)
        | some workload =>
          if workload.PodCount = 0 then
            some (st.1.store id { n with Metadata := n.Metadata.set g.IsDead (.bool true) }, st.2)
          else some st

/-- The first loop `for id, n := range trafficMap`, visiting the keys in the
order `visit`. A key that is no longer in the map when its turn comes is not
visited. -/
def deadLoop (g : Pkg) (namespaceInfo : AppenderNamespaceInfo) :
    List String → TrafficMap × Nat → Option (TrafficMap × Nat)
  | [], st => some st
  | id :: rest, st =>
    match st.1.get? id with
    | none => deadLoop g namespaceInfo rest st
    | some n =>
      match visitNode g namespaceInfo id n st with
      | none => none
      | some st1 => deadLoop g namespaceInfo rest st1

/-- The inner loop of the edge clean-up: the edges whose destination is found in
the map, in their order. -/
def goodEdges (tm : TrafficMap) (edges : List Edge) : List Edge :=
  edges.filter (fun e => (tm.get? e.Dest).isSome)

/-- The second loop `for _, n := range trafficMap`, visiting the keys in the
order `visit`: `n.Edges = goodEdges`. -/
def edgeLoop : List String → TrafficMap → TrafficMap
  | [], tm => tm
  | id :: rest, tm =>
    match tm.get? id with
    | none => edgeLoop rest tm
    | some n => edgeLoop rest (tm.store id { n with Edges := goodEdges tm n.Edges })

/-- The order in which one `range` loop visits the keys of the map it ranges
over. -/
abbrev Order := TrafficMap → List String

/-- An order is valid when it lists each key of the map exactly once. -/
def Order.Valid (order : Order) : Prop :=
  ∀ tm, (order tm).Perm tm.keys

/-- The order that visits the keys as they are stored. -/
def Order.stored : Order :=
  fun tm => tm.keys

/-- The order that visits the keys from the last stored to the first. -/
def Order.reversed : Order :=
  fun tm => tm.keys.reverse

/-- `DeadNodeAppender.applyDeadNodes`: one pruning pass. `order1` and `order2`
are the orders in which the two `range` loops visit the keys. The result is the
map after the pass and `numRemoved`; `none` is a panic. -/
def applyDeadNodes (g : Pkg) (order1 order2 : Order) (trafficMap : TrafficMap)
    (namespaceInfo : AppenderNamespaceInfo) : Option (TrafficMap × Nat) :=
  match deadLoop g namespaceInfo (order1 trafficMap) (trafficMap, 0) with
  | none => none
  | some (tm, numRemoved) =>
    if numRemoved > 0 then some (edgeLoop (order2 tm) tm, numRemoved)
    else some (tm, numRemoved)

/-- How a call ended. -/
inductive Run (α : Type) where
  | returned (a : α)
  | panicked
  | outOfFuel
  deriving DecidableEq, Repr

/-- The iteration orders of a whole run: `sched i` is the order of the `i`-th
`range` loop that the run executes. -/
abbrev Schedule := Nat → Order

/-- A schedule is valid when each of its orders is. -/
def Schedule.Valid (sched : Schedule) : Prop :=
  ∀ i, (sched i).Valid

/-- The state `AppendGraph` leaves behind: the traffic map, the namespace
context, and the value returned by each call of `applyDeadNodes`, in order. -/
structure Appended where
  trafficMap : TrafficMap
  namespaceInfo : AppenderNamespaceInfo
  passes : List Nat
  deriving DecidableEq, Repr

/-- The loop `for applyDeadNodes { applyDeadNodes = a.applyDeadNodes(...) > 0 }`.
`pass` counts the calls made so far, `passes` holds their results; each
iteration uses one unit of fuel. -/
def pruneLoop (g : Pkg) (sched : Schedule) (namespaceInfo : AppenderNamespaceInfo) :
    Nat → Nat → TrafficMap → List Nat → Run Appended
  | 0, _, _, _ => .outOfFuel
  | fuel + 1, pass, tm, passes =>
    match applyDeadNodes g (sched (2 * pass)) (sched (2 * pass + 1)) tm namespaceInfo with
    | none => .panicked
    | some (tm1, numRemoved) =>
      if numRemoved > 0 then
        pruneLoop g sched namespaceInfo fuel (pass + 1) tm1 (passes ++ [numRemoved])
      else .returned ⟨tm1, namespaceInfo, passes ++ [numRemoved]⟩

/-- `DeadNodeAppender.AppendGraph`. A failed `GetWorkloadList` makes
`graph.CheckError` panic. -/
def AppendGraph (g : Pkg) (sched : Schedule) (fuel : Nat) (trafficMap : TrafficMap)
    (globalInfo : AppenderGlobalInfo) (namespaceInfo : AppenderNamespaceInfo) : Run Appended :=
  if trafficMap.length = 0 then .returned ⟨trafficMap, namespaceInfo, []⟩
  else
    match getWorkloadList namespaceInfo with
    | some _ => pruneLoop g sched namespaceInfo fuel 0 trafficMap []
    | none =>
      match globalInfo.GetWorkloadList namespaceInfo.Namespace with
      | .error _ => .panicked
      | .ok workloadList =>
        pruneLoop g sched { namespaceInfo with VendorWorkloadList := some workloadList }
          fuel 0 trafficMap []

/-! ### Definitions used to state and to prove the claims -/

/-- What one pass decides for a node. -/
inductive Verdict where
  | keep
  | flag
  | remove
  deriving DecidableEq, Repr

/-- The node with the dead flag written into its metadata. -/
def flagged (g : Pkg) (n : Node) : Node :=
  { n with Metadata := n.Metadata.set g.IsDead (.bool true) }

/-- The decision `visitNode` takes for a node; `none` is a panic. -/
def verdict (g : Pkg) (namespaceInfo : AppenderNamespaceInfo) (n : Node) : Option Verdict :=
  match protocolLoop n.Metadata g.Protocols with
  | none => none
  | some true => some .keep
  | some false =>
    match n.NodeType with
    | .Aggregate => some .keep
    | .Service =>
      if n.Edges.length > 0 then some .keep
      else if (n.Metadata.get? g.IsServiceEntry).isSome then some .keep
      else if (n.Metadata.get? g.IsEgressCluster).isSome then some .keep
      else some .remove
    | _ =>
      if n.NodeType != .Unknown && !g.IsOK n.Workload then some .keep
      else
        match getWorkload n.Workload namespaceInfo with
        | none => some .remove
        | some workload => if workload.PodCount = 0 then some .flag else some .keep

/-- The first loop as a single sweep over the entries: the entries whose key is
in `vs` are decided, the others are left alone. -/
def sweepOn (g : Pkg) (namespaceInfo : AppenderNamespaceInfo) (vs : List String) :
    TrafficMap → Option (TrafficMap × Nat)
  | [] => some ([], 0)
  | (id, n) :: rest =>
    match sweepOn g namespaceInfo vs rest with
    | none => none
    | some (r, k) =>
      if id ∈ vs then
        match verdict g namespaceInfo n with
        | none => none
        | some .keep => some ((id, n) :: r, k)
        | some .flag => some ((id, flagged g n) :: r, k)
        | some .remove => some (r, k + 1)
      else some ((id, n) :: r, k)

/-- The first loop as a single sweep over all entries. -/
def sweep (g : Pkg) (namespaceInfo : AppenderNamespaceInfo) (tm : TrafficMap) :
    Option (TrafficMap × Nat) :=
  sweepOn g namespaceInfo tm.keys tm

/-- The second loop as a single map over the entries, testing destinations
against the keys of `tm0`. -/
def cleanOn (tm0 : TrafficMap) (vs : List String) (tm : TrafficMap) : TrafficMap :=
  tm.map (fun kv =>
    if kv.1 ∈ vs then (kv.1, { kv.2 with Edges := goodEdges tm0 kv.2.Edges }) else kv)

/-- The second loop as a single map over all entries. -/
def cleanEdges (tm : TrafficMap) : TrafficMap :=
  cleanOn tm tm.keys tm

/-- One pass, independent of any iteration order. -/
def pass (g : Pkg) (namespaceInfo : AppenderNamespaceInfo) (tm : TrafficMap) :
    Option (TrafficMap × Nat) :=
  match sweep g namespaceInfo tm with
  | none => none
  | some (r, k) => if k > 0 then some (cleanEdges r, k) else some (r, k)

/-- Edge consistency: every edge of every node of the map leads to a key of
the map. -/
def EdgesConsistent (tm : TrafficMap) : Prop :=
  ∀ kv ∈ tm, ∀ e ∈ kv.2.Edges, (tm.get? e.Dest).isSome = true

instance (tm : TrafficMap) : Decidable (EdgesConsistent tm) :=
  inferInstanceAs (Decidable (∀ kv ∈ tm, ∀ e ∈ kv.2.Edges, _))

/-- The traffic test in the words of the specification: some configured
protocol has an inbound or outbound rate whose metadata field is present, is a
`float64`, and is above zero. -/
def hasTraffic (g : Pkg) (n : Node) : Bool :=
  g.Protocols.any (fun p => p.NodeRates.any (fun r =>
    (r.IsIn || r.IsOut) &&
      match n.Metadata.get? r.Name with
      | some (.float64 rate) => rate.gtZero
      | _ => false))

/-- What is left of a node after the first loop: itself, itself with the dead
flag, or nothing when it is removed (or the loop panicked on it). -/
def survivor (g : Pkg) (namespaceInfo : AppenderNamespaceInfo) (n : Node) : Option Node :=
  match verdict g namespaceInfo n with
  | some .keep => some n
  | some .flag => some (flagged g n)
  | _ => none

/-- The namespace context after the lazy fetch of the workload list; `none`
when the fetch fails. -/
def withWorkloadList (globalInfo : AppenderGlobalInfo) (namespaceInfo : AppenderNamespaceInfo) :
    Option AppenderNamespaceInfo :=
  match getWorkloadList namespaceInfo with
  | some _ => some namespaceInfo
  | none =>
    match globalInfo.GetWorkloadList namespaceInfo.Namespace with
    | .error _ => none
    | .ok workloadList => some { namespaceInfo with VendorWorkloadList := some workloadList }

/-- The pruning loop on top of `pass`, independent of any iteration order. -/
def prune (g : Pkg) (namespaceInfo : AppenderNamespaceInfo) :
    Nat → TrafficMap → List Nat → Run Appended
  | 0, _, _ => .outOfFuel
  | fuel + 1, tm, passes =>
    match pass g namespaceInfo tm with
    | none => .panicked
    | some (tm1, numRemoved) =>
      if numRemoved > 0 then prune g namespaceInfo fuel tm1 (passes ++ [numRemoved])
      else .returned ⟨tm1, namespaceInfo, passes ++ [numRemoved]⟩

/-! ### Sample data -/

/-- A sample of the package declarations: HTTP and TCP with their inbound and
outbound node rates (and one error rate that is neither), an `IsOK` that
rejects the empty string and the placeholder `unknown`, and the three keys. -/
def samplePkg : Pkg where
  Protocols :=
    [⟨"http", [⟨"httpIn", true, false⟩, ⟨"httpIn5xx", false, false⟩, ⟨"httpOut", false, true⟩]⟩,
     ⟨"tcp", [⟨"tcpIn", true, false⟩, ⟨"tcpOut", false, true⟩]⟩]
  IsOK := fun s => s != "" && s != "unknown"
  IsDead := "isDead"
  IsServiceEntry := "isServiceEntry"
  IsEgressCluster := "isEgressCluster"

/-- A sample node in namespace `ns` with no app, version or service name. -/
def sampleNode (id : String) (t : NodeType) (workload : String) (dests : List String)
    (md : Metadata) : Node :=
  ⟨id, t, "ns", workload, "", "", "", dests.map (fun d => ⟨d, []⟩), md⟩

/-- The schedule that visits the keys as stored in every loop. -/
def storedSchedule : Schedule :=
  fun _ => Order.stored

/-- The schedule that visits the keys in reverse in every loop. -/
def reversedSchedule : Schedule :=
  fun _ => Order.reversed

/-- A workload `a` with outbound traffic calls the service `s`, whose only
workload `b` is gone from the cluster. -/
def sampleMap : TrafficMap :=
  [("a", sampleNode "a" .Workload "wa" ["s"] [("httpOut", .float64 (.finite 1 0))]),
   ("s", sampleNode "s" .Service "" ["b"] []),
   ("b", sampleNode "b" .Workload "wb" [] [])]

/-- The namespace context whose cached workload list holds `wa` with one pod. -/
def sampleInfo : AppenderNamespaceInfo :=
  ⟨"ns", some ⟨"ns", [⟨"wa", 1⟩]⟩⟩

/-- A request context whose workload service fails. -/
def failingGlobalInfo : AppenderGlobalInfo :=
  ⟨fun _ => .error "unavailable"⟩

/-- What is left of `sampleMap`: the workload `a` without its edge. -/
def sampleResult : Appended :=
  ⟨[("a", sampleNode "a" .Workload "wa" [] [("httpOut", .float64 (.finite 1 0))])],
    sampleInfo, [1, 1, 0]⟩

/-- A map whose only node is of type Workload and carries the placeholder
`unknown` as its workload name. -/
def placeholderMap : TrafficMap :=
  [("w", sampleNode "w" .Workload "unknown" [] [])]

/-- A map whose only node is the workload `wa` with inbound HTTP traffic. -/
def busyMap : TrafficMap :=
  [("w", sampleNode "w" .Workload "wa" [] [("httpIn", .float64 (.finite 1 0))])]

/-- A map whose only node is the workload `wa` without traffic. -/
def idleMap : TrafficMap :=
  [("w", sampleNode "w" .Workload "wa" [] [])]

/-- The namespace context whose cached workload list holds `wa` and `unknown`,
both without pods. -/
def idleInfo : AppenderNamespaceInfo :=
  ⟨"ns", some ⟨"ns", [⟨"wa", 0⟩, ⟨"unknown", 0⟩]⟩⟩

/-- The sample map after its first pass: `b` is gone and so is the edge of `s`. -/
def samplePass1 : TrafficMap :=
  [("a", sampleNode "a" .Workload "wa" ["s"] [("httpOut", .float64 (.finite 1 0))]),
   ("s", sampleNode "s" .Service "" [] [])]

/-- The dead-flag key is not the name of an inbound or outbound node rate. -/
def DeadKeyFresh (g : Pkg) : Prop :=
  ∀ p ∈ g.Protocols, ∀ r ∈ p.NodeRates, (r.IsIn || r.IsOut) = true → r.Name ≠ g.IsDead

instance (g : Pkg) : Decidable (DeadKeyFresh g) :=
  inferInstanceAs (Decidable (∀ p ∈ g.Protocols, ∀ r ∈ p.NodeRates, _ → _))

/-- A map with a versioned-app node `p` that carries no workload name and an
Unknown-type node `u`, both without traffic. -/
def mixedMap : TrafficMap :=
  [("p", sampleNode "p" .VersionedApp "" ["u"] []),
   ("u", sampleNode "u" .Unknown "unknown" [] [])]

/-- The map `mixedMap` after one pass: `u` and the edge to it are gone. -/
def mixedPass1 : TrafficMap :=
  [("p", sampleNode "p" .VersionedApp "" [] [])]

/-- The node `n` with another edge list and other metadata. -/
def remake (n : Node) (es : List Edge) (md : Metadata) : Node :=
  { n with Edges := es, Metadata := md }

/-- The map `tm` descends from `tm0`: it has no key that `tm0` lacks, and each
of its nodes is the node of `tm0` under the same key, but for its edge list,
which is a sub-sequence of the old one and, when `tm0` has consistent edges,
holds exactly the old edges whose destination is in `tm`, and for its
metadata, which is the old one or the old one with the dead flag written,
the latter only for a node that is no Service and whose workload is found. -/
def Descends (g : Pkg) (namespaceInfo : AppenderNamespaceInfo) (tm0 tm : TrafficMap) : Prop :=
  tm.keys.Sublist tm0.keys ∧
    ∀ id c, tm.get? id = some c →
      ∃ n es md, tm0.get? id = some n ∧ c = remake n es md ∧ es.Sublist n.Edges ∧
        (EdgesConsistent tm0 → es = goodEdges tm n.Edges) ∧
        (md = n.Metadata ∨
          (md = n.Metadata.set g.IsDead (.bool true) ∧ n.NodeType ≠ .Service ∧
            getWorkload n.Workload namespaceInfo ≠ none))

/-- A node is removable relative to the node set `S` when it has no traffic and
either it is a Service with no edge to a node of `S` and neither the
service-entry nor the egress-cluster key, or it is neither Aggregate nor
Service, is Unknown or has an OK workload name, and its workload is not found
in the workload list. -/
def removable (g : Pkg) (namespaceInfo : AppenderNamespaceInfo) (S : List String) (n : Node) :
    Prop :=
  hasTraffic g n = false ∧
    ((n.NodeType = .Service ∧ (∀ e ∈ n.Edges, e.Dest ∉ S) ∧
        n.Metadata.get? g.IsServiceEntry = none ∧ n.Metadata.get? g.IsEgressCluster = none) ∨
      (n.NodeType ≠ .Aggregate ∧ n.NodeType ≠ .Service ∧
        (n.NodeType = .Unknown ∨ g.IsOK n.Workload = true) ∧
        getWorkload n.Workload namespaceInfo = none))

end appender

namespace business

/-- A JSON value as the handler and instance specs use it. -/
inductive Json where
  | str (s : String)
  | obj (fields : List (String × Json))
  | arr (items : List Json)

/-- The object `kubernetes.GenericIstioObject` with the fields the service fills in. -/
structure GenericIstioObject where
  APIVersion : String
  Kind : String
  Name : String
  Namespace : String
  Labels : List (String × String)
  Spec : List (String × Json)

/-- The request payload `models.ThreeScaleHandler`. -/
structure ThreeScaleHandler where
  Name : String
  ServiceId : String
  SystemUrl : String
  AccessToken : String
  deriving DecidableEq, Repr

/-- The configuration values read through `config.Get()`. -/
structure Config where
  IstioNamespace : String
  AdapterName : String
  AdapterService : String
  AdapterPort : String

/-- What the service calls outside of `threescale.go`: the configuration, the
JSON codec, the `resourceTypesToAPI` table, the error text
`models.BadThreeScaleHandlerJson`, the cluster client `in.k8s` and
`models.CastThreeScaleHandlers`. A Go `error` is its message; a cluster object
is known by its name. -/
structure Env where
  conf : Config
  Unmarshal : String → Except String ThreeScaleHandler
  Marshal : GenericIstioObject → Except String String
  resourceTypesToAPI : String → String
  BadThreeScaleHandlerJson : String
  CreateIstioObject : String → String → String → String → Except String String
  GetAdapters : String → String → Except String (List String)
  CastThreeScaleHandlers : List String → List ThreeScaleHandler

/-- A Go result pair `(models.ThreeScaleHandlers, error)`; `none` is `nil`. -/
abbrev HandlersResult := Option (List ThreeScaleHandler) × Option String

/-- `ThreeScaleService.getThreeScaleHandlers`. -/
def getThreeScaleHandlers (env : Env) : HandlersResult :=
  match env.GetAdapters env.conf.IstioNamespace "kiali_wizard" with
  | .error err2 => (some [], some err2)
  | .ok tsh => (some (env.CastThreeScaleHandlers tsh), none)

/-- `generateJsonHandlerInstance`: the JSON of the handler and of the instance. -/
def generateJsonHandlerInstance (env : Env) (handler : ThreeScaleHandler) :
    Except String (String × String) :=
  let newHandler : GenericIstioObject :=
    { APIVersion := "config.istio.io/v1alpha2"
      Kind := "handler"
      Name := handler.Name
      Namespace := env.conf.IstioNamespace
      Labels := [("kiali_wizard", "threescale-handler")]
      Spec :=
        [("adapter", .str env.conf.AdapterName),
         ("params", .obj [("service_id", .str handler.ServiceId),
                          ("system_url", .str handler.SystemUrl),
                          ("access_token", .str handler.AccessToken)]),
         ("connection", .obj [("address",
            .str (env.conf.AdapterService ++ ":" ++ env.conf.AdapterPort))])] }
  let newInstance : GenericIstioObject :=
    { APIVersion := "config.istio.io/v1alpha2"
      Kind := "instance"
      Name := "threescale-authorization-" ++ handler.Name
      Namespace := env.conf.IstioNamespace
      Labels := [("kiali_wizard", "threescale-handler")]
      Spec :=
        [("template", .str "threescale-authorization"),
         ("params", .obj
           [("subject", .obj
              [("user", .str
                  "request.query_params[\"user_key\"] | request.headers[\"User-Key\"] | \"\""),
               ("properties", .obj
                  [("app_id", .str
                      "request.query_params[\"app_id\"] | request.headers[\"App-Id\"] | \"\""),
                   ("app_key", .str
                      "request.query_params[\"app_key\"] | request.headers[\"App-Key\"] | \"\"")])]),
            ("action", .obj
              [("path", .str "request.url_path"),
               ("method", .str "request.method | \"get\"")])])] }
  match env.Marshal newHandler with
  | .error err => .error err
  | .ok bHandler =>
    match env.Marshal newInstance with
    | .error err => .error err
    | .ok bInstance => .ok (bHandler, bInstance)

/-- `ThreeScaleService.CreateThreeScaleHandler`. The goroutine that creates the
instance and the handler creation on the main goroutine touch different
variables and are joined by `wg.Wait()`, so both outcomes are known when the
checks run. -/
def CreateThreeScaleHandler (env : Env) (body : String) : HandlersResult :=
  match env.Unmarshal body with
  | .error _ => (none, some env.BadThreeScaleHandlerJson)
  | .ok threeScaleHandler =>
    match generateJsonHandlerInstance env threeScaleHandler with
    | .error _ => (none, some env.BadThreeScaleHandlerJson)
    | .ok (jsonHandler, jsonInstance) =>
      let errInstance : Option String :=
        match env.CreateIstioObject (env.resourceTypesToAPI "templates")
            env.conf.IstioNamespace "instances" jsonInstance with
        | .error e => some e
        | .ok _ => none
      let errHandler : Option String :=
        match env.CreateIstioObject (env.resourceTypesToAPI "adapters")
            env.conf.IstioNamespace "handlers" jsonHandler with
        | .error e => some e
        | .ok _ => none
      if errHandler ≠ none then (none, errHandler)
      else if errInstance ≠ none then (none, errHandler)
      else getThreeScaleHandlers env

/-- A sample environment in which the cluster accepts handlers and rejects
instances. Its codec is a stub: a body decodes to the handler of that name, an
object encodes to its kind and name. -/
def rejectingInstances : Env where
  conf := ⟨"istio-system", "threescale", "threescaleistioadapter", "3333"⟩
  Unmarshal := fun body => .ok ⟨body, "service-1", "https://example.test", "token"⟩
  Marshal := fun o => .ok (o.Kind ++ "/" ++ o.Name)
  resourceTypesToAPI := fun t => t
  BadThreeScaleHandlerJson := "bad ThreeScaleHandler JSON"
  CreateIstioObject := fun _ _ resourceType json =>
    if resourceType = "instances" then .error "instances are rejected" else .ok json
  GetAdapters := fun _ _ => .ok []
  CastThreeScaleHandlers := fun _ => []

/-- `models.ResourcePermissions`. -/
structure ResourcePermissions where
  Create : Bool
  Update : Bool
  Delete : Bool
  deriving DecidableEq, Repr

/-- `models.ThreeScaleInfo`; its zero value is disabled with no permission. -/
structure ThreeScaleInfo where
  Enabled : Bool
  Permissions : ResourcePermissions
  deriving DecidableEq, Repr

/-- What `GetThreeScaleInfo` calls outside of `threescale.go`: the
configuration, the adapter lookup of the cluster client, the test
`errors.IsNotFound` and the helper `getPermissions`. -/
structure InfoEnv where
  conf : Config
  GetAdapter : String → String → String → Except String String
  IsNotFound : String → Bool
  getPermissions : String → String → String → Bool × Bool × Bool

/-- `ThreeScaleService.GetThreeScaleInfo`: the Go result pair
`(models.ThreeScaleInfo, error)`, where `none` is the nil error. -/
def GetThreeScaleInfo (env : InfoEnv) : ThreeScaleInfo × Option String :=
  match env.GetAdapter env.conf.IstioNamespace "adapters" env.conf.AdapterName with
  | .error err2 =>
    if env.IsNotFound err2 then (⟨false, ⟨false, false, false⟩⟩, none)
    else (⟨false, ⟨false, false, false⟩⟩, some err2)
  | .ok _ =>
    match env.getPermissions env.conf.IstioNamespace "adapters" "adapters" with
    | (canCreate, canUpdate, canDelete) => (⟨true, ⟨canCreate, canUpdate, canDelete⟩⟩, none)

/-- A sample environment without the adapter: the lookup answers not-found. -/
def adapterMissing : InfoEnv where
  conf := ⟨"istio-system", "threescale", "threescaleistioadapter", "3333"⟩
  GetAdapter := fun _ _ _ => .error "adapters threescale not found"
  IsNotFound := fun e => e = "adapters threescale not found"
  getPermissions := fun _ _ _ => (true, true, false)

/-- A sample environment whose cluster cannot be reached. -/
def adapterUnreachable : InfoEnv where
  conf := ⟨"istio-system", "threescale", "threescaleistioadapter", "3333"⟩
  GetAdapter := fun _ _ _ => .error "connection refused"
  IsNotFound := fun e => e = "adapters threescale not found"
  getPermissions := fun _ _ _ => (true, true, false)

/-- A sample environment with the adapter in place. -/
def adapterPresent : InfoEnv where
  conf := ⟨"istio-system", "threescale", "threescaleistioadapter", "3333"⟩
  GetAdapter := fun _ _ name => .ok name
  IsNotFound := fun e => e = "adapters threescale not found"
  getPermissions := fun _ _ _ => (true, true, false)

/-- The request payload `models.ThreeScaleServiceRule`. -/
structure ThreeScaleServiceRule where
  ServiceName : String
  ServiceNamespace : String
  AppName : String
  Versions : List String
  ThreeScaleHandlerName : String
  deriving DecidableEq, Repr

/-- A call made on the cluster client `in.k8s`, with its arguments. -/
inductive Call where
  | create (api : String) (ns : String) (resourceType : String) (json : String)
  | update (api : String) (ns : String) (resourceType : String) (name : String) (json : String)
  | delete (api : String) (ns : String) (objectType : String) (objectName : String)
  deriving DecidableEq, Repr

/-- What the rule functions and the handler deletion call on top of `Env`: the
label names `conf.IstioLabels`, the decoder of a rule body, the error text
`models.BadThreeScaleRuleJson` and two more operations of the cluster client.
`DeleteIstioObject` answers the error, `none` being nil. -/
structure RuleEnv extends Env where
  AppLabelName : String
  VersionLabelName : String
  UnmarshalRule : String → Except String ThreeScaleServiceRule
  BadThreeScaleRuleJson : String
  UpdateIstioObject : String → String → String → String → String → Except String String
  DeleteIstioObject : String → String → String → String → Option String

/-- The object `newInstance` that `generateJsonHandlerInstance` marshals. -/
def newInstance (env : Env) (handler : ThreeScaleHandler) : GenericIstioObject :=
  { APIVersion := "config.istio.io/v1alpha2"
    Kind := "instance"
    Name := "threescale-authorization-" ++ handler.Name
    Namespace := env.conf.IstioNamespace
    Labels := [("kiali_wizard", "threescale-handler")]
    Spec :=
      [("template", .str "threescale-authorization"),
       ("params", .obj
         [("subject", .obj
            [("user", .str
                "request.query_params[\"user_key\"] | request.headers[\"User-Key\"] | \"\""),
             ("properties", .obj
                [("app_id", .str
                    "request.query_params[\"app_id\"] | request.headers[\"App-Id\"] | \"\""),
                 ("app_key", .str
                    "request.query_params[\"app_key\"] | request.headers[\"App-Key\"] | \"\"")])]),
          ("action", .obj
            [("path", .str "request.url_path"),
             ("method", .str "request.method | \"get\"")])])] }

/-- The object `newHandler` that `generateJsonHandlerInstance` marshals. -/
def newHandler (env : Env) (handler : ThreeScaleHandler) : GenericIstioObject :=
  { APIVersion := "config.istio.io/v1alpha2"
    Kind := "handler"
    Name := handler.Name
    Namespace := env.conf.IstioNamespace
    Labels := [("kiali_wizard", "threescale-handler")]
    Spec :=
      [("adapter", .str env.conf.AdapterName),
       ("params", .obj [("service_id", .str handler.ServiceId),
                        ("system_url", .str handler.SystemUrl),
                        ("access_token", .str handler.AccessToken)]),
       ("connection", .obj [("address",
          .str (env.conf.AdapterService ++ ":" ++ env.conf.AdapterPort))])] }

/-- `ThreeScaleService.DeleteThreeScaleHandler`, with the calls it makes on the
cluster client, in order. -/
def DeleteThreeScaleHandler (env : RuleEnv) (handlerName : String) :
    HandlersResult × List Call :=
  let call1 := Call.delete (env.resourceTypesToAPI "adapters") env.conf.IstioNamespace
    "handlers" handlerName
  match env.DeleteIstioObject (env.resourceTypesToAPI "adapters") env.conf.IstioNamespace
      "handlers" handlerName with
  | some err => ((none, some err), [call1])
  | none =>
    let instanceName := "threescale-authorization-" ++ handlerName
    let call2 := Call.delete (env.resourceTypesToAPI "templates") env.conf.IstioNamespace
      "instances" instanceName
    match env.DeleteIstioObject (env.resourceTypesToAPI "templates") env.conf.IstioNamespace
        "instances" instanceName with
    | some err => ((none, some err), [call1, call2])
    | none => (getThreeScaleHandlers env.toEnv, [call1, call2])

/-- The loop of `generateMatch` over the versions, from index `i` on. -/
def generateMatch.versions (versionLabelName : String) : Nat → List String → String → String
  | _, [], acc => acc
  | i, version :: rest, acc =>
    generateMatch.versions versionLabelName (i + 1) rest
      ((if i > 0 then acc ++ "|| " else acc)
        ++ "destination.labels[\"" ++ versionLabelName ++ "\"] == \"" ++ version ++ "\" ")

/-- `generateMatch`. -/
def generateMatch (env : RuleEnv) (threeScaleServiceRule : ThreeScaleServiceRule) : String :=
  let m0 := "destination.service.namespace == \"" ++ threeScaleServiceRule.ServiceNamespace
    ++ "\" && "
  let m1 := m0 ++ "destination.service.name == \"" ++ threeScaleServiceRule.ServiceName
    ++ "\" && "
  let m2 := m1 ++ "destination.labels[\"" ++ env.AppLabelName ++ "\"] == \""
    ++ threeScaleServiceRule.AppName ++ "\" && "
  if threeScaleServiceRule.Versions.length > 0 then
    generateMatch.versions env.VersionLabelName 0 threeScaleServiceRule.Versions (m2 ++ "(")
      ++ ")"
  else m2

/-- The object `newRule` that `generateJsonRule` marshals. -/
def newRule (env : RuleEnv) (threeScaleServiceRule : ThreeScaleServiceRule) :
    GenericIstioObject :=
  { APIVersion := "config.istio.io/v1alpha2"
    Kind := "rule"
    Name := "threescale-" ++ threeScaleServiceRule.ServiceNamespace ++ "-"
      ++ threeScaleServiceRule.ServiceName
    Namespace := env.conf.IstioNamespace
    Labels := [("kiali_wizard",
      threeScaleServiceRule.ServiceNamespace ++ "-" ++ threeScaleServiceRule.ServiceName)]
    Spec :=
      [("match", .str (generateMatch env threeScaleServiceRule)),
       ("actions", .arr
         [.obj
           [("handler", .str
              (threeScaleServiceRule.ThreeScaleHandlerName ++ "." ++ env.conf.IstioNamespace)),
            ("instances", .arr
              [.str ("threescale-authorization-"
                ++ threeScaleServiceRule.ThreeScaleHandlerName)])]])] }

/-- `generateJsonRule`. -/
def generateJsonRule (env : RuleEnv) (threeScaleServiceRule : ThreeScaleServiceRule) :
    Except String String :=
  match env.Marshal (newRule env threeScaleServiceRule) with
  | .error err => .error err
  | .ok bRule => .ok bRule

/-- The zero value `models.ThreeScaleServiceRule{}`. -/
def ThreeScaleServiceRule.zero : ThreeScaleServiceRule :=
  ⟨"", "", "", [], ""⟩

/-- `ThreeScaleService.UpdateThreeScaleRule` for the namespace `ns`, with the
calls it makes on the cluster client. -/
def UpdateThreeScaleRule (env : RuleEnv) (ns service body : String) :
    (ThreeScaleServiceRule × Option String) × List Call :=
  match env.UnmarshalRule body with
  | .error _ => ((ThreeScaleServiceRule.zero, some env.BadThreeScaleRuleJson), [])
  | .ok decoded =>
    let threeScaleServiceRule :=
      { decoded with ServiceNamespace := ns, ServiceName := service }
    match generateJsonRule env threeScaleServiceRule with
    | .error _ => ((ThreeScaleServiceRule.zero, some env.BadThreeScaleRuleJson), [])
    | .ok jsonRule =>
      let ruleName := "threescale-" ++ ns ++ "-" ++ service
      let call := Call.update (env.resourceTypesToAPI "rules") env.conf.IstioNamespace "rules"
        ruleName jsonRule
      match env.UpdateIstioObject (env.resourceTypesToAPI "rules") env.conf.IstioNamespace
          "rules" ruleName jsonRule with
      | .error errRule => ((ThreeScaleServiceRule.zero, some errRule), [call])
      | .ok _ => ((threeScaleServiceRule, none), [call])

/-- `ThreeScaleService.DeleteThreeScaleRule` for the namespace `ns`, with the
call it makes on the cluster client. -/
def DeleteThreeScaleRule (env : RuleEnv) (ns service : String) :
    Option String × List Call :=
  let ruleName := "threescale-" ++ ns ++ "-" ++ service
  (env.DeleteIstioObject (env.resourceTypesToAPI "rules") env.conf.IstioNamespace "rules"
      ruleName,
    [Call.delete (env.resourceTypesToAPI "rules") env.conf.IstioNamespace "rules" ruleName])

/-- The instance names that the actions of a rule object refer to: the strings
under `instances` of every entry of `actions` in its spec. -/
def actionInstances (o : GenericIstioObject) : List String :=
  match o.Spec.lookup "actions" with
  | some (.arr actions) =>
    actions.flatMap (fun action =>
      match action with
      | .obj fields =>
        match fields.lookup "instances" with
        | some (.arr names) =>
          names.filterMap (fun name =>
            match name with
            | .str s => some s
            | _ => none)
        | _ => []
      | _ => [])
  | _ => []

/-- A sample environment for the rule functions: every cluster call succeeds,
a rule body decodes to a rule for the handler of that name. -/
def acceptingRules : RuleEnv where
  toEnv := rejectingInstances
  AppLabelName := "app"
  VersionLabelName := "version"
  UnmarshalRule := fun body => .ok ⟨"svc", "other", "app", ["v1", "v2"], body⟩
  BadThreeScaleRuleJson := "bad ThreeScaleServiceRule JSON"
  UpdateIstioObject := fun _ _ _ _ json => .ok json
  DeleteIstioObject := fun _ _ _ _ => none

end business

/-! ## Lemmas on the map operations -/

namespace graph

theorem TrafficMap.get?_nil (id : String) : TrafficMap.get? [] id = none := rfl

theorem TrafficMap.get?_cons_self (id : String) (n : Node) (tm : TrafficMap) :
    TrafficMap.get? ((id, n) :: tm) id = some n := by
  simp [TrafficMap.get?, List.lookup]

theorem TrafficMap.get?_cons_ne {k id : String} (n : Node) (tm : TrafficMap) (h : k ≠ id) :
    TrafficMap.get? ((k, n) :: tm) id = TrafficMap.get? tm id := by
  have h1 : (id == k) = false := by simpa using fun e => h e.symm
  simp [TrafficMap.get?, List.lookup, h1]

theorem TrafficMap.get?_eq_none_iff {tm : TrafficMap} {id : String} :
    tm.get? id = none ↔ id ∉ tm.keys := by
  induction tm with
  | nil => simp [TrafficMap.get?, TrafficMap.keys]
  | cons kv rest ih =>
    obtain ⟨k, n⟩ := kv
    by_cases h : k = id
    · subst h
      simp [TrafficMap.get?_cons_self, TrafficMap.keys]
    · rw [TrafficMap.get?_cons_ne n rest h, ih]
      simp only [TrafficMap.keys, List.map_cons, List.mem_cons, not_or]
      exact ⟨fun hh => ⟨fun e => h e.symm, hh⟩, fun hh => hh.2⟩

theorem TrafficMap.isSome_get?_iff {tm : TrafficMap} {id : String} :
    (tm.get? id).isSome = true ↔ id ∈ tm.keys := by
  rw [← not_iff_not, ← TrafficMap.get?_eq_none_iff]
  cases tm.get? id <;> simp

theorem TrafficMap.mem_of_get? {tm : TrafficMap} {id : String} {n : Node}
    (h : tm.get? id = some n) : (id, n) ∈ tm := by
  induction tm with
  | nil => simp [TrafficMap.get?] at h
  | cons kv rest ih =>
    obtain ⟨k, m⟩ := kv
    by_cases hk : k = id
    · subst hk
      rw [TrafficMap.get?_cons_self] at h
      simp at h
      simp [h]
    · rw [TrafficMap.get?_cons_ne m rest hk] at h
      exact List.mem_cons_of_mem _ (ih h)

theorem TrafficMap.get?_of_mem {tm : TrafficMap} (hwf : tm.WF) {id : String} {n : Node}
    (h : (id, n) ∈ tm) : tm.get? id = some n := by
  induction tm with
  | nil => simp at h
  | cons kv rest ih =>
    obtain ⟨k, m⟩ := kv
    have hwf1 : k ∉ TrafficMap.keys rest ∧ (TrafficMap.keys rest).Nodup := by
      simpa [TrafficMap.WF, TrafficMap.keys] using hwf
    rcases List.mem_cons.1 h with h1 | h1
    · simp only [Prod.mk.injEq] at h1
      obtain ⟨rfl, rfl⟩ := h1
      exact TrafficMap.get?_cons_self _ _ _
    · have hk : k ≠ id := by
        intro e
        subst e
        exact hwf1.1 (List.mem_map_of_mem Prod.fst h1)
      rw [TrafficMap.get?_cons_ne m rest hk]
      exact ih hwf1.2 h1

theorem TrafficMap.WF_cons {k : String} {n : Node} {tm : TrafficMap} :
    TrafficMap.WF ((k, n) :: tm) ↔ k ∉ tm.keys ∧ tm.WF := by
  simp [TrafficMap.WF, TrafficMap.keys]

theorem TrafficMap.delete_of_not_mem {tm : TrafficMap} {id : String} (h : id ∉ tm.keys) :
    tm.delete id = tm := by
  induction tm with
  | nil => rfl
  | cons kv rest ih =>
    obtain ⟨k, n⟩ := kv
    simp only [TrafficMap.keys, List.map_cons, List.mem_cons, not_or] at h
    have hk : k ≠ id := fun e => h.1 e.symm
    have := ih h.2
    simp only [TrafficMap.delete] at this ⊢
    rw [List.filter_cons_of_pos (by simpa using hk), this]

theorem TrafficMap.delete_cons_self (id : String) (n : Node) (tm : TrafficMap) :
    TrafficMap.delete ((id, n) :: tm) id = tm.delete id := by
  simp [TrafficMap.delete, List.filter_cons]

theorem TrafficMap.delete_cons_ne {k id : String} (n : Node) (tm : TrafficMap) (h : k ≠ id) :
    TrafficMap.delete ((k, n) :: tm) id = (k, n) :: tm.delete id := by
  simp [TrafficMap.delete, List.filter_cons, h]

theorem TrafficMap.store_cons_self (id : String) (n m : Node) (tm : TrafficMap) :
    TrafficMap.store id n ((id, m) :: tm) = (id, n) :: tm := by
  simp [TrafficMap.store]

theorem TrafficMap.store_cons_ne {k id : String} (n m : Node) (tm : TrafficMap) (h : k ≠ id) :
    TrafficMap.store id n ((k, m) :: tm) = (k, m) :: TrafficMap.store id n tm := by
  simp [TrafficMap.store, h]

theorem TrafficMap.keys_store (id : String) (n : Node) (tm : TrafficMap) :
    (TrafficMap.store id n tm).keys = tm.keys := by
  induction tm with
  | nil => rfl
  | cons kv rest ih =>
    obtain ⟨k, m⟩ := kv
    by_cases h : k = id
    · subst h
      simp [TrafficMap.store_cons_self, TrafficMap.keys]
    · rw [TrafficMap.store_cons_ne n m rest h]
      simp only [TrafficMap.keys, List.map_cons] at ih ⊢
      rw [ih]

theorem TrafficMap.keys_delete_sublist (id : String) (tm : TrafficMap) :
    (tm.delete id).keys.Sublist tm.keys := by
  simp only [TrafficMap.delete, TrafficMap.keys]
  exact List.Sublist.map _ (List.filter_sublist _)

theorem TrafficMap.WF_delete {tm : TrafficMap} (h : tm.WF) (id : String) : (tm.delete id).WF :=
  List.Nodup.sublist (TrafficMap.keys_delete_sublist id tm) h

theorem TrafficMap.WF_store {tm : TrafficMap} (h : tm.WF) (id : String) (n : Node) :
    (TrafficMap.store id n tm).WF := by
  simpa [TrafficMap.WF, TrafficMap.keys_store] using h

end graph

namespace appender

open graph

/-! ## The first loop is a sweep, whatever the order -/

theorem visitNode_eq (g : Pkg) (ni : AppenderNamespaceInfo) (id : String) (n : Node)
    (st : TrafficMap × Nat) :
    visitNode g ni id n st =
      match verdict g ni n with
      | none => none
      | some .keep => some st
      | some .flag => some (st.1.store id (flagged g n), st.2)
      | some .remove => some (st.1.delete id, st.2 + 1) := by
  unfold visitNode verdict
  cases protocolLoop n.Metadata g.Protocols with
  | none => rfl
  | some b =>
    cases b with
    | true => rfl
    | false =>
      cases hT : n.NodeType <;> simp only [] <;>
        (repeat' split) <;> first | rfl | simp_all [flagged]

theorem sweepOn_cons (g : Pkg) (ni : AppenderNamespaceInfo) (vs : List String) (id : String)
    (n : Node) (rest : TrafficMap) :
    sweepOn g ni vs ((id, n) :: rest) =
      match sweepOn g ni vs rest with
      | none => none
      | some (r, k) =>
        if id ∈ vs then
          match verdict g ni n with
          | none => none
          | some .keep => some ((id, n) :: r, k)
          | some .flag => some ((id, flagged g n) :: r, k)
          | some .remove => some (r, k + 1)
        else some ((id, n) :: r, k) := by
  rw [sweepOn]

theorem sweepOn_skip (g : Pkg) (ni : AppenderNamespaceInfo) (vs : List String) {id : String}
    {tm : TrafficMap} (h : id ∉ tm.keys) :
    sweepOn g ni (id :: vs) tm = sweepOn g ni vs tm := by
  induction tm with
  | nil => rfl
  | cons kv rest ih =>
    obtain ⟨k, n⟩ := kv
    simp only [TrafficMap.keys, List.map_cons, List.mem_cons, not_or] at h
    have hk : k ≠ id := fun e => h.1 e.symm
    rw [sweepOn_cons, sweepOn_cons, ih h.2]
    simp only [List.mem_cons, hk, false_or]

theorem sweepOn_visit (g : Pkg) (ni : AppenderNamespaceInfo) (vs : List String) {id : String}
    {n : Node} {tm : TrafficMap} (hwf : tm.WF) (hget : tm.get? id = some n) (hvs : id ∉ vs) :
    sweepOn g ni (id :: vs) tm =
      match verdict g ni n with
      | none => none
      | some .keep => sweepOn g ni vs tm
      | some .flag => sweepOn g ni vs (TrafficMap.store id (flagged g n) tm)
      | some .remove => (sweepOn g ni vs (tm.delete id)).map (fun r => (r.1, r.2 + 1)) := by
  induction tm with
  | nil => simp [TrafficMap.get?] at hget
  | cons kv rest ih =>
    obtain ⟨k, m⟩ := kv
    obtain ⟨hk, hwf1⟩ := TrafficMap.WF_cons.1 hwf
    by_cases hkid : k = id
    · subst hkid
      rw [TrafficMap.get?_cons_self] at hget
      simp only [Option.some.injEq] at hget
      subst hget
      rw [sweepOn_cons, sweepOn_skip g ni vs hk, TrafficMap.store_cons_self,
        TrafficMap.delete_cons_self, TrafficMap.delete_of_not_mem hk, sweepOn_cons, sweepOn_cons]
      simp only [List.mem_cons, true_or, if_true, hvs, if_false]
      cases sweepOn g ni vs rest with
      | none => cases verdict g ni m with
        | none => rfl
        | some v => cases v <;> rfl
      | some r => cases verdict g ni m with
        | none => rfl
        | some v => cases v <;> rfl
    · rw [TrafficMap.get?_cons_ne m rest hkid] at hget
      rw [sweepOn_cons, ih hwf1 hget, TrafficMap.store_cons_ne _ m rest hkid,
        TrafficMap.delete_cons_ne m rest hkid, sweepOn_cons, sweepOn_cons, sweepOn_cons]
      simp only [List.mem_cons, hkid, false_or]
      generalize verdict g ni n = vn
      generalize verdict g ni m = vm
      generalize sweepOn g ni vs rest = s0
      generalize sweepOn g ni vs (TrafficMap.delete rest id) = s1
      rcases vn with _ | vn
      · rfl
      · cases vn with
        | keep => rfl
        | flag => rfl
        | remove =>
          rcases s1 with _ | s1
          · rfl
          · by_cases hkv : k ∈ vs
            · simp only [hkv, if_true, Option.map_some']
              rcases vm with _ | vm
              · rfl
              · cases vm <;> rfl
            · simp only [hkv, if_false, Option.map_some']

theorem sweepOn_nil (g : Pkg) (ni : AppenderNamespaceInfo) (tm : TrafficMap) :
    sweepOn g ni [] tm = some (tm, 0) := by
  induction tm with
  | nil => rfl
  | cons kv rest ih =>
    obtain ⟨k, n⟩ := kv
    rw [sweepOn_cons, ih]
    simp

theorem deadLoop_eq_sweepOn (g : Pkg) (ni : AppenderNamespaceInfo) (vs : List String) :
    ∀ (tm : TrafficMap) (k : Nat), tm.WF → vs.Nodup →
      deadLoop g ni vs (tm, k) = (sweepOn g ni vs tm).map (fun r => (r.1, k + r.2)) := by
  induction vs with
  | nil =>
    intro tm k _ _
    rw [sweepOn_nil]
    rfl
  | cons id rest ih =>
    intro tm k hwf hnd
    obtain ⟨hid, hnd1⟩ := List.nodup_cons.1 hnd
    rw [deadLoop]
    cases hget : tm.get? id with
    | none =>
      simp only []
      rw [sweepOn_skip g ni rest (TrafficMap.get?_eq_none_iff.1 hget)]
      exact ih tm k hwf hnd1
    | some n =>
      simp only []
      rw [visitNode_eq, sweepOn_visit g ni rest hwf hget hid]
      rcases hv : verdict g ni n with _ | v
      · rfl
      · cases v with
        | keep => exact ih tm k hwf hnd1
        | flag => exact ih _ k (TrafficMap.WF_store hwf _ _) hnd1
        | remove =>
          simp only []
          rw [ih _ (k + 1) (TrafficMap.WF_delete hwf _) hnd1, Option.map_map]
          congr 1
          funext r
          simp only [Function.comp]
          congr 1
          omega

theorem sweepOn_congr (g : Pkg) (ni : AppenderNamespaceInfo) {vs ws : List String}
    {tm : TrafficMap} (h : ∀ id ∈ tm.keys, (id ∈ vs ↔ id ∈ ws)) :
    sweepOn g ni vs tm = sweepOn g ni ws tm := by
  induction tm with
  | nil => rfl
  | cons kv rest ih =>
    obtain ⟨k, n⟩ := kv
    have h1 : ∀ id ∈ TrafficMap.keys rest, (id ∈ vs ↔ id ∈ ws) := fun id hid =>
      h id (by simp only [TrafficMap.keys, List.map_cons] at hid ⊢; exact List.mem_cons_of_mem _ hid)
    have h2 : (k ∈ vs ↔ k ∈ ws) := h k (by simp [TrafficMap.keys])
    rw [sweepOn_cons, sweepOn_cons, ih h1]
    simp only [h2]

theorem deadLoop_eq_sweep (g : Pkg) (ni : AppenderNamespaceInfo) {vs : List String}
    {tm : TrafficMap} (hwf : tm.WF) (hvs : vs.Perm tm.keys) :
    deadLoop g ni vs (tm, 0) = sweep g ni tm := by
  rw [deadLoop_eq_sweepOn g ni vs tm 0 hwf (hvs.nodup_iff.2 hwf), sweep,
    sweepOn_congr g ni (fun id _ => hvs.mem_iff)]
  cases sweepOn g ni tm.keys tm with
  | none => rfl
  | some r => simp

theorem sweep_cons (g : Pkg) (ni : AppenderNamespaceInfo) (id : String) (n : Node)
    (rest : TrafficMap) :
    sweep g ni ((id, n) :: rest) =
      match sweep g ni rest with
      | none => none
      | some (r, k) =>
        match verdict g ni n with
        | none => none
        | some .keep => some ((id, n) :: r, k)
        | some .flag => some ((id, flagged g n) :: r, k)
        | some .remove => some (r, k + 1) := by
  have h : sweepOn g ni (TrafficMap.keys ((id, n) :: rest)) rest = sweep g ni rest := by
    rw [sweep]
    apply sweepOn_congr
    intro k hk
    simp only [TrafficMap.keys, List.map_cons, List.mem_cons] at hk ⊢
    exact ⟨fun _ => hk, fun h => Or.inr h⟩
  rw [sweep, sweepOn_cons, h]
  simp [TrafficMap.keys]

/-! ## The second loop is a map, whatever the order -/

theorem goodEdges_congr {tm tm0 : TrafficMap} (h : tm.keys = tm0.keys) (es : List Edge) :
    goodEdges tm es = goodEdges tm0 es := by
  unfold goodEdges
  apply List.filter_congr
  intro e _
  rw [Bool.eq_iff_iff, TrafficMap.isSome_get?_iff, TrafficMap.isSome_get?_iff, h]

theorem cleanOn_cons (tm0 : TrafficMap) (vs : List String) (kv : String × Node)
    (rest : TrafficMap) :
    cleanOn tm0 vs (kv :: rest) =
      (if kv.1 ∈ vs then (kv.1, { kv.2 with Edges := goodEdges tm0 kv.2.Edges }) else kv)
        :: cleanOn tm0 vs rest := rfl

theorem cleanOn_skip (tm0 : TrafficMap) (vs : List String) {id : String} {tm : TrafficMap}
    (h : id ∉ tm.keys) : cleanOn tm0 (id :: vs) tm = cleanOn tm0 vs tm := by
  induction tm with
  | nil => rfl
  | cons kv rest ih =>
    obtain ⟨k, n⟩ := kv
    simp only [TrafficMap.keys, List.map_cons, List.mem_cons, not_or] at h
    have hk : k ≠ id := fun e => h.1 e.symm
    rw [cleanOn_cons, cleanOn_cons, ih h.2]
    simp only [List.mem_cons, hk, false_or]

theorem cleanOn_nil (tm0 tm : TrafficMap) : cleanOn tm0 [] tm = tm := by
  induction tm with
  | nil => rfl
  | cons kv rest ih => rw [cleanOn_cons, ih]; simp

theorem cleanOn_visit (tm0 : TrafficMap) (vs : List String) {id : String} {n : Node}
    {tm : TrafficMap} (hwf : tm.WF) (hget : tm.get? id = some n) (hvs : id ∉ vs) :
    cleanOn tm0 (id :: vs) tm =
      cleanOn tm0 vs (TrafficMap.store id { n with Edges := goodEdges tm0 n.Edges } tm) := by
  induction tm with
  | nil => simp [TrafficMap.get?] at hget
  | cons kv rest ih =>
    obtain ⟨k, m⟩ := kv
    obtain ⟨hk, hwf1⟩ := TrafficMap.WF_cons.1 hwf
    by_cases hkid : k = id
    · subst hkid
      rw [TrafficMap.get?_cons_self] at hget
      simp only [Option.some.injEq] at hget
      subst hget
      rw [TrafficMap.store_cons_self, cleanOn_cons, cleanOn_cons, cleanOn_skip tm0 vs hk]
      simp [hvs]
    · rw [TrafficMap.get?_cons_ne m rest hkid] at hget
      rw [TrafficMap.store_cons_ne _ m rest hkid, cleanOn_cons, cleanOn_cons, ih hwf1 hget]
      simp only [List.mem_cons, hkid, false_or]

theorem edgeLoop_eq_cleanOn (tm0 : TrafficMap) (vs : List String) :
    ∀ tm : TrafficMap, tm.WF → vs.Nodup → tm.keys = tm0.keys →
      edgeLoop vs tm = cleanOn tm0 vs tm := by
  induction vs with
  | nil =>
    intro tm _ _ _
    rw [cleanOn_nil]
    rfl
  | cons id rest ih =>
    intro tm hwf hnd hkeys
    obtain ⟨hid, hnd1⟩ := List.nodup_cons.1 hnd
    rw [edgeLoop]
    cases hget : tm.get? id with
    | none =>
      simp only []
      rw [cleanOn_skip tm0 rest (TrafficMap.get?_eq_none_iff.1 hget)]
      exact ih tm hwf hnd1 hkeys
    | some n =>
      simp only []
      rw [cleanOn_visit tm0 rest hwf hget hid, goodEdges_congr hkeys]
      exact ih _ (TrafficMap.WF_store hwf _ _) hnd1 (by rw [TrafficMap.keys_store, hkeys])

theorem cleanOn_congr (tm0 : TrafficMap) {vs ws : List String} {tm : TrafficMap}
    (h : ∀ id ∈ tm.keys, (id ∈ vs ↔ id ∈ ws)) : cleanOn tm0 vs tm = cleanOn tm0 ws tm := by
  induction tm with
  | nil => rfl
  | cons kv rest ih =>
    have h1 : ∀ id ∈ TrafficMap.keys rest, (id ∈ vs ↔ id ∈ ws) := fun id hid =>
      h id (by simp only [TrafficMap.keys, List.map_cons] at hid ⊢; exact List.mem_cons_of_mem _ hid)
    have h2 : (kv.1 ∈ vs ↔ kv.1 ∈ ws) := h kv.1 (by simp [TrafficMap.keys])
    rw [cleanOn_cons, cleanOn_cons, ih h1]
    simp only [h2]

theorem edgeLoop_eq_cleanEdges {vs : List String} {tm : TrafficMap} (hwf : tm.WF)
    (hvs : vs.Perm tm.keys) : edgeLoop vs tm = cleanEdges tm := by
  rw [edgeLoop_eq_cleanOn tm vs tm hwf (hvs.nodup_iff.2 hwf) rfl, cleanEdges]
  exact cleanOn_congr tm (fun id _ => hvs.mem_iff)

theorem cleanEdges_eq_map (tm : TrafficMap) :
    cleanEdges tm = tm.map (fun kv => (kv.1, { kv.2 with Edges := goodEdges tm kv.2.Edges })) := by
  unfold cleanEdges cleanOn
  apply List.map_congr_left
  intro kv hkv
  have : kv.1 ∈ tm.keys := List.mem_map_of_mem Prod.fst hkv
  simp [this]

/-! ## One pass, independent of the order -/

theorem sweep_nil (g : Pkg) (ni : AppenderNamespaceInfo) : sweep g ni [] = some ([], 0) := rfl

theorem sweep_keys_sublist (g : Pkg) (ni : AppenderNamespaceInfo) :
    ∀ (tm r : TrafficMap) (k : Nat), sweep g ni tm = some (r, k) →
      r.keys.Sublist tm.keys ∧ r.length + k = tm.length := by
  intro tm
  induction tm with
  | nil =>
    intro r k h
    rw [sweep_nil] at h
    simp only [Option.some.injEq, Prod.mk.injEq] at h
    obtain ⟨rfl, rfl⟩ := h
    simp
  | cons kv rest ih =>
    obtain ⟨id, n⟩ := kv
    intro r k h
    rw [sweep_cons] at h
    rcases hs : sweep g ni rest with _ | ⟨r1, k1⟩
    · rw [hs] at h; simp at h
    · rw [hs] at h
      obtain ⟨hsub, hlen⟩ := ih r1 k1 hs
      rcases hv : verdict g ni n with _ | v
      · rw [hv] at h; simp at h
      · rw [hv] at h
        cases v <;> simp only [Option.some.injEq, Prod.mk.injEq] at h <;> obtain ⟨rfl, rfl⟩ := h
        · exact ⟨by simpa [TrafficMap.keys] using hsub, by simp only [List.length_cons]; omega⟩
        · exact ⟨by simpa [TrafficMap.keys] using hsub, by simp only [List.length_cons]; omega⟩
        · exact ⟨by simpa [TrafficMap.keys] using hsub.trans (List.sublist_cons_self _ _),
            by simp only [List.length_cons]; omega⟩

theorem sweep_WF {g : Pkg} {ni : AppenderNamespaceInfo} {tm r : TrafficMap} {k : Nat}
    (hwf : tm.WF) (h : sweep g ni tm = some (r, k)) : r.WF :=
  List.Nodup.sublist (sweep_keys_sublist g ni tm r k h).1 hwf

theorem sweep_get? (g : Pkg) (ni : AppenderNamespaceInfo) :
    ∀ (tm r : TrafficMap) (k : Nat), tm.WF → sweep g ni tm = some (r, k) →
      ∀ id, r.get? id = (tm.get? id).bind (survivor g ni) := by
  intro tm
  induction tm with
  | nil =>
    intro r k _ h id
    rw [sweep_nil] at h
    simp only [Option.some.injEq, Prod.mk.injEq] at h
    obtain ⟨rfl, rfl⟩ := h
    rfl
  | cons kv rest ih =>
    obtain ⟨k0, n⟩ := kv
    intro r k hwf h id
    obtain ⟨hk0, hwf1⟩ := TrafficMap.WF_cons.1 hwf
    rw [sweep_cons] at h
    rcases hs : sweep g ni rest with _ | ⟨r1, k1⟩
    · rw [hs] at h; simp at h
    · rw [hs] at h
      have ih1 := ih r1 k1 hwf1 hs
      rcases hv : verdict g ni n with _ | v
      · rw [hv] at h; simp at h
      · rw [hv] at h
        by_cases hid : k0 = id
        · subst hid
          rw [TrafficMap.get?_cons_self]
          cases v <;> simp only [Option.some.injEq, Prod.mk.injEq] at h <;>
            obtain ⟨rfl, rfl⟩ := h
          · rw [TrafficMap.get?_cons_self]; simp [survivor, hv]
          · rw [TrafficMap.get?_cons_self]; simp [survivor, hv]
          · rw [ih1 k0, TrafficMap.get?_eq_none_iff.2 hk0]; simp [survivor, hv]
        · rw [TrafficMap.get?_cons_ne n rest hid]
          cases v <;> simp only [Option.some.injEq, Prod.mk.injEq] at h <;>
            obtain ⟨rfl, rfl⟩ := h
          · rw [TrafficMap.get?_cons_ne _ _ hid]; exact ih1 id
          · rw [TrafficMap.get?_cons_ne _ _ hid]; exact ih1 id
          · exact ih1 id

theorem sweep_no_panic (g : Pkg) (ni : AppenderNamespaceInfo) :
    ∀ (tm r : TrafficMap) (k : Nat), sweep g ni tm = some (r, k) →
      ∀ kv ∈ tm, verdict g ni kv.2 ≠ none := by
  intro tm
  induction tm with
  | nil => intro r k _ kv hkv; simp at hkv
  | cons kv0 rest ih =>
    obtain ⟨k0, n⟩ := kv0
    intro r k h kv hkv
    rw [sweep_cons] at h
    rcases hs : sweep g ni rest with _ | ⟨r1, k1⟩
    · rw [hs] at h; simp at h
    · rw [hs] at h
      rcases List.mem_cons.1 hkv with rfl | hmem
      · intro hv
        rw [hv] at h
        simp at h
      · exact ih r1 k1 hs kv hmem

theorem sweep_zero_keys {g : Pkg} {ni : AppenderNamespaceInfo} {tm r : TrafficMap}
    (h : sweep g ni tm = some (r, 0)) : r.keys = tm.keys := by
  obtain ⟨hsub, hlen⟩ := sweep_keys_sublist g ni tm r 0 h
  apply hsub.eq_of_length
  simp only [TrafficMap.keys, List.length_map]
  omega

theorem get?_map_snd (f : String → Node → Node) (tm : TrafficMap) (id : String) :
    TrafficMap.get? (tm.map (fun kv => (kv.1, f kv.1 kv.2))) id = (tm.get? id).map (f id) := by
  induction tm with
  | nil => rfl
  | cons kv rest ih =>
    obtain ⟨k, n⟩ := kv
    by_cases h : k = id
    · subst h
      simp [TrafficMap.get?_cons_self]
    · simp only [List.map_cons]
      rw [TrafficMap.get?_cons_ne _ _ h, TrafficMap.get?_cons_ne _ _ h, ih]

theorem cleanEdges_keys (tm : TrafficMap) : (cleanEdges tm).keys = tm.keys := by
  rw [cleanEdges_eq_map]
  simp [TrafficMap.keys, Function.comp_def]

theorem cleanEdges_get? (tm : TrafficMap) (id : String) :
    (cleanEdges tm).get? id =
      (tm.get? id).map (fun n => { n with Edges := goodEdges tm n.Edges }) := by
  rw [cleanEdges_eq_map]
  exact get?_map_snd (fun _ n => { n with Edges := goodEdges tm n.Edges }) tm id

theorem applyDeadNodes_eq_pass (g : Pkg) {order1 order2 : Order} (h1 : order1.Valid)
    (h2 : order2.Valid) {tm : TrafficMap} (hwf : tm.WF) (ni : AppenderNamespaceInfo) :
    applyDeadNodes g order1 order2 tm ni = pass g ni tm := by
  unfold applyDeadNodes pass
  rw [deadLoop_eq_sweep g ni hwf (h1 tm)]
  rcases hs : sweep g ni tm with _ | ⟨r, k⟩
  · rfl
  · simp only []
    by_cases hk : k > 0
    · simp only [hk, if_true]
      rw [edgeLoop_eq_cleanEdges (sweep_WF hwf hs) (h2 r)]
    · simp only [hk, if_false]

theorem pass_cases {g : Pkg} {ni : AppenderNamespaceInfo} {tm tm1 : TrafficMap} {k : Nat}
    (h : pass g ni tm = some (tm1, k)) :
    (k = 0 ∧ sweep g ni tm = some (tm1, 0)) ∨
      (0 < k ∧ ∃ r, sweep g ni tm = some (r, k) ∧ tm1 = cleanEdges r) := by
  unfold pass at h
  rcases hs : sweep g ni tm with _ | ⟨r, j⟩
  · rw [hs] at h; simp at h
  · rw [hs] at h
    simp only [] at h
    by_cases hj : j > 0
    · simp only [hj, if_true, Option.some.injEq, Prod.mk.injEq] at h
      obtain ⟨rfl, rfl⟩ := h
      exact Or.inr ⟨hj, r, rfl, rfl⟩
    · simp only [hj, if_false, Option.some.injEq, Prod.mk.injEq] at h
      obtain ⟨rfl, rfl⟩ := h
      have : j = 0 := by omega
      subst this
      exact Or.inl ⟨rfl, rfl⟩

theorem pass_size {g : Pkg} {ni : AppenderNamespaceInfo} {tm tm1 : TrafficMap} {k : Nat}
    (h : pass g ni tm = some (tm1, k)) :
    tm1.keys.Sublist tm.keys ∧ tm1.length + k = tm.length := by
  rcases pass_cases h with ⟨rfl, hs⟩ | ⟨_, r, hs, rfl⟩
  · exact sweep_keys_sublist g ni tm tm1 0 hs
  · obtain ⟨h1, h2⟩ := sweep_keys_sublist g ni tm r k hs
    refine ⟨by rw [cleanEdges_keys]; exact h1, ?_⟩
    have : (cleanEdges r).length = r.length := by
      rw [cleanEdges_eq_map, List.length_map]
    omega

theorem pass_WF {g : Pkg} {ni : AppenderNamespaceInfo} {tm tm1 : TrafficMap} {k : Nat}
    (hwf : tm.WF) (h : pass g ni tm = some (tm1, k)) : tm1.WF :=
  List.Nodup.sublist (pass_size h).1 hwf

theorem pass_get? {g : Pkg} {ni : AppenderNamespaceInfo} {tm tm1 : TrafficMap} {k : Nat}
    (hwf : tm.WF) (h : pass g ni tm = some (tm1, k)) (id : String) :
    tm1.get? id = ((tm.get? id).bind (survivor g ni)).map
      (fun n => if 0 < k then { n with Edges := goodEdges tm1 n.Edges } else n) := by
  rcases pass_cases h with ⟨rfl, hs⟩ | ⟨hk, r, hs, rfl⟩
  · rw [sweep_get? g ni tm tm1 0 hwf hs id]
    simp
  · rw [cleanEdges_get?, sweep_get? g ni tm r k hwf hs id]
    simp only [hk, if_true]
    congr 1
    funext n
    rw [goodEdges_congr (cleanEdges_keys r)]

theorem pass_no_panic {g : Pkg} {ni : AppenderNamespaceInfo} {tm tm1 : TrafficMap} {k : Nat}
    (h : pass g ni tm = some (tm1, k)) : ∀ kv ∈ tm, verdict g ni kv.2 ≠ none := by
  rcases pass_cases h with ⟨rfl, hs⟩ | ⟨_, r, hs, rfl⟩
  · exact sweep_no_panic g ni tm tm1 0 hs
  · exact sweep_no_panic g ni tm r k hs

theorem survivor_edges {g : Pkg} {ni : AppenderNamespaceInfo} {n n1 : Node}
    (h : survivor g ni n = some n1) : n1.Edges = n.Edges := by
  unfold survivor at h
  rcases hv : verdict g ni n with _ | v
  · rw [hv] at h; simp at h
  · rw [hv] at h
    cases v <;> simp only [Option.some.injEq] at h
    · rw [← h]
    · rw [← h]; rfl
    · simp at h

theorem cleanEdges_consistent (r : TrafficMap) : EdgesConsistent (cleanEdges r) := by
  intro kv hkv e he
  rw [cleanEdges_eq_map] at hkv
  obtain ⟨kv0, _, rfl⟩ := List.mem_map.1 hkv
  simp only [goodEdges, List.mem_filter] at he
  rw [TrafficMap.isSome_get?_iff, cleanEdges_keys, ← TrafficMap.isSome_get?_iff]
  exact he.2

theorem pass_consistent {g : Pkg} {ni : AppenderNamespaceInfo} {tm tm1 : TrafficMap} {k : Nat}
    (hwf : tm.WF) (hc : EdgesConsistent tm) (h : pass g ni tm = some (tm1, k)) :
    EdgesConsistent tm1 := by
  rcases pass_cases h with ⟨rfl, hs⟩ | ⟨_, r, hs, rfl⟩
  · intro kv hkv e he
    obtain ⟨id, n1⟩ := kv
    have hg := TrafficMap.get?_of_mem (sweep_WF hwf hs) hkv
    rw [sweep_get? g ni tm tm1 0 hwf hs id] at hg
    rcases hget : tm.get? id with _ | n
    · rw [hget] at hg; simp at hg
    · rw [hget] at hg
      simp only [Option.some_bind] at hg
      have hE := survivor_edges hg
      have hmem := TrafficMap.mem_of_get? hget
      have := hc (id, n) hmem e (by rw [← hE]; exact he)
      rw [TrafficMap.isSome_get?_iff] at this ⊢
      rw [sweep_zero_keys hs]
      exact this
  · exact cleanEdges_consistent r

/-! ## The pruning loop, independent of the schedule -/

theorem pruneLoop_eq_prune (g : Pkg) {sched : Schedule} (hs : sched.Valid)
    (ni : AppenderNamespaceInfo) :
    ∀ (fuel p : Nat) (tm : TrafficMap) (passes : List Nat), tm.WF →
      pruneLoop g sched ni fuel p tm passes = prune g ni fuel tm passes := by
  intro fuel
  induction fuel with
  | zero => intro p tm passes _; rfl
  | succ fuel ih =>
    intro p tm passes hwf
    rw [pruneLoop, prune, applyDeadNodes_eq_pass g (hs _) (hs _) hwf ni]
    rcases hp : pass g ni tm with _ | ⟨tm1, k⟩
    · rfl
    · simp only []
      by_cases hk : k > 0
      · simp only [hk, if_true]
        exact ih _ _ _ (pass_WF hwf hp)
      · simp only [hk, if_false]

theorem AppendGraph_eq (g : Pkg) {sched : Schedule} (hs : sched.Valid) (fuel : Nat)
    {tm : TrafficMap} (hwf : tm.WF) (gi : AppenderGlobalInfo) (ni : AppenderNamespaceInfo) :
    AppendGraph g sched fuel tm gi ni =
      if tm.length = 0 then .returned ⟨tm, ni, []⟩
      else
        match withWorkloadList gi ni with
        | none => .panicked
        | some ni1 => prune g ni1 fuel tm [] := by
  unfold AppendGraph withWorkloadList
  by_cases h0 : tm.length = 0
  · simp only [h0, if_true]
  · simp only [h0, if_false]
    rcases getWorkloadList ni with _ | wl
    · simp only []
      rcases gi.GetWorkloadList ni.Namespace with e | wl
      · rfl
      · exact pruneLoop_eq_prune g hs _ fuel 0 tm [] hwf
    · exact pruneLoop_eq_prune g hs _ fuel 0 tm [] hwf

theorem prune_returned (g : Pkg) (ni : AppenderNamespaceInfo) (I : TrafficMap → Prop)
    (hI : ∀ tm tm1 k, tm.WF → I tm → pass g ni tm = some (tm1, k) → I tm1) :
    ∀ (fuel : Nat) (tm : TrafficMap) (passes : List Nat) (r : Appended), tm.WF → I tm →
      prune g ni fuel tm passes = .returned r →
      r.namespaceInfo = ni ∧
        ∃ tmL, tmL.WF ∧ I tmL ∧ pass g ni tmL = some (r.trafficMap, 0) := by
  intro fuel
  induction fuel with
  | zero => intro tm passes r _ _ h; simp [prune] at h
  | succ fuel ih =>
    intro tm passes r hwf hi h
    rw [prune] at h
    rcases hp : pass g ni tm with _ | ⟨tm1, k⟩
    · rw [hp] at h; simp at h
    · rw [hp] at h
      simp only [] at h
      by_cases hk : k > 0
      · simp only [hk, if_true] at h
        exact ih tm1 _ r (pass_WF hwf hp) (hI tm tm1 k hwf hi hp) h
      · simp only [hk, if_false, Run.returned.injEq] at h
        have hk0 : k = 0 := by omega
        subst hk0
        subst h
        exact ⟨rfl, tm, hwf, hi, hp⟩

theorem prune_trace (g : Pkg) (ni : AppenderNamespaceInfo) :
    ∀ (fuel : Nat) (tm : TrafficMap) (passes : List Nat) (r : Appended),
      prune g ni fuel tm passes = .returned r →
      ∃ ks : List Nat, r.passes = passes ++ ks ++ [0] ∧ (∀ k ∈ ks, 0 < k) ∧
        r.trafficMap.length + ks.sum = tm.length := by
  intro fuel
  induction fuel with
  | zero => intro tm passes r h; simp [prune] at h
  | succ fuel ih =>
    intro tm passes r h
    rw [prune] at h
    rcases hp : pass g ni tm with _ | ⟨tm1, k⟩
    · rw [hp] at h; simp at h
    · rw [hp] at h
      simp only [] at h
      have hsz := (pass_size hp).2
      by_cases hk : k > 0
      · simp only [hk, if_true] at h
        obtain ⟨ks, h1, h2, h3⟩ := ih tm1 _ r h
        refine ⟨k :: ks, ?_, ?_, ?_⟩
        · rw [h1]; simp
        · intro j hj
          rcases List.mem_cons.1 hj with rfl | hj
          · exact hk
          · exact h2 j hj
        · simp only [List.sum_cons]; omega
      · simp only [hk, if_false, Run.returned.injEq] at h
        have hk0 : k = 0 := by omega
        subst hk0
        subst h
        exact ⟨[], by simp, by simp, by simpa using hsz⟩

theorem prune_fuel (g : Pkg) (ni : AppenderNamespaceInfo) :
    ∀ (fuel : Nat) (tm : TrafficMap) (passes : List Nat), tm.length < fuel →
      prune g ni fuel tm passes ≠ .outOfFuel := by
  intro fuel
  induction fuel with
  | zero => intro tm passes h; omega
  | succ fuel ih =>
    intro tm passes hlen
    rw [prune]
    rcases hp : pass g ni tm with _ | ⟨tm1, k⟩
    · simp
    · simp only []
      have hsz := (pass_size hp).2
      by_cases hk : k > 0
      · simp only [hk, if_true]
        exact ih tm1 _ (by omega)
      · simp only [hk, if_false]
        simp

/-! ## Metadata and the traffic test -/

theorem get?_set_self (k : String) (v : Value) (md : Metadata) :
    (Metadata.set k v md).get? k = some v := by
  induction md with
  | nil => simp [Metadata.set, Metadata.get?, List.lookup]
  | cons kv rest ih =>
    obtain ⟨k0, w⟩ := kv
    by_cases h : k0 = k
    · simp [Metadata.set, h, Metadata.get?, List.lookup]
    · have h1 : (k == k0) = false := by simpa using fun e => h e.symm
      simp only [Metadata.set, h, if_false]
      simp only [Metadata.get?, List.lookup, h1] at ih ⊢
      exact ih

theorem get?_set_ne {k k1 : String} (v : Value) (md : Metadata) (h : k1 ≠ k) :
    (Metadata.set k v md).get? k1 = md.get? k1 := by
  induction md with
  | nil =>
    have h1 : (k1 == k) = false := by simpa using h
    simp [Metadata.set, Metadata.get?, List.lookup, h1]
  | cons kv rest ih =>
    obtain ⟨k0, w⟩ := kv
    by_cases h0 : k0 = k
    · subst h0
      have h1 : (k1 == k0) = false := by simpa using h
      simp [Metadata.set, Metadata.get?, List.lookup, h1]
    · simp only [Metadata.set, h0, if_false]
      simp only [Metadata.get?] at ih ⊢
      by_cases h2 : k1 = k0
      · subst h2
        simp [List.lookup]
      · have h3 : (k1 == k0) = false := by simpa using h2
        simp only [List.lookup, h3]
        exact ih

theorem set_set (k : String) (v : Value) (md : Metadata) :
    Metadata.set k v (Metadata.set k v md) = Metadata.set k v md := by
  induction md with
  | nil => simp [Metadata.set]
  | cons kv rest ih =>
    obtain ⟨k0, w⟩ := kv
    by_cases h : k0 = k
    · simp [Metadata.set, h]
    · simp [Metadata.set, h, ih]

theorem rateLoop_some {md : Metadata} {rs : List Rate} {b : Bool} (h : rateLoop md rs = some b) :
    b = rs.any (fun r => (r.IsIn || r.IsOut) &&
      match md.get? r.Name with
      | some (.float64 rate) => rate.gtZero
      | _ => false) := by
  induction rs with
  | nil => simp [rateLoop] at h; simp [h]
  | cons r rs ih =>
    rw [rateLoop] at h
    rw [List.any_cons]
    by_cases hio : (r.IsIn || r.IsOut) = true
    · rw [if_pos hio] at h
      rw [hio]
      rcases hm : md.get? r.Name with _ | v
      · rw [hm] at h
        simpa using ih h
      · rw [hm] at h
        cases v with
        | float64 f =>
          simp only [] at h
          by_cases hf : f.gtZero = true
          · rw [if_pos hf] at h
            simp only [Option.some.injEq] at h
            simp [← h, hf]
          · rw [if_neg hf] at h
            simp only [Bool.not_eq_true] at hf
            simpa [hf] using ih h
        | bool c => simp at h
        | string c => simp at h
    · rw [if_neg hio] at h
      simp only [Bool.not_eq_true] at hio
      rw [hio]
      simpa using ih h

theorem protocolLoop_some {g : Pkg} {n : Node} {b : Bool}
    (h : protocolLoop n.Metadata g.Protocols = some b) : b = hasTraffic g n := by
  unfold hasTraffic
  generalize g.Protocols = ps at h
  induction ps with
  | nil => simp [protocolLoop] at h; simp [h]
  | cons p ps ih =>
    rw [protocolLoop] at h
    rw [List.any_cons]
    rcases hr : rateLoop n.Metadata p.NodeRates with _ | c
    · rw [hr] at h; simp at h
    · rw [hr] at h
      have hc := rateLoop_some hr
      cases c with
      | true =>
        simp only [Option.some.injEq] at h
        rw [← hc, ← h]
        rfl
      | false =>
        simp only [] at h
        rw [← hc, Bool.false_or]
        exact ih h

theorem verdict_protocolLoop {g : Pkg} {ni : AppenderNamespaceInfo} {n : Node} {v : Verdict}
    (h : verdict g ni n = some v) :
    protocolLoop n.Metadata g.Protocols = some (hasTraffic g n) := by
  rcases hp : protocolLoop n.Metadata g.Protocols with _ | b
  · unfold verdict at h
    rw [hp] at h
    simp at h
  · rw [protocolLoop_some hp]

theorem verdict_of_traffic {g : Pkg} {ni : AppenderNamespaceInfo} {n : Node} {v : Verdict}
    (ht : hasTraffic g n = true) (h : verdict g ni n = some v) : v = .keep := by
  have hp := verdict_protocolLoop h
  unfold verdict at h
  rw [hp, ht] at h
  simp only [Option.some.injEq] at h
  exact h.symm

theorem verdict_service {g : Pkg} {ni : AppenderNamespaceInfo} {n : Node} {v : Verdict}
    (hty : n.NodeType = .Service) (ht : hasTraffic g n = false) (h : verdict g ni n = some v) :
    v = (if n.Edges.length > 0 then Verdict.keep
      else if (n.Metadata.get? g.IsServiceEntry).isSome then Verdict.keep
      else if (n.Metadata.get? g.IsEgressCluster).isSome then Verdict.keep
      else Verdict.remove) := by
  have hp := verdict_protocolLoop h
  unfold verdict at h
  rw [hp, ht, hty] at h
  simp only [] at h
  split_ifs at h ⊢ <;> simp_all

theorem backed_aux (c : Bool) (ow : Option models.WorkloadListItem) (v : Verdict) :
    (if c = true then some Verdict.keep
      else
        match ow with
        | none => some Verdict.remove
        | some workload => if workload.PodCount = 0 then some Verdict.flag else some Verdict.keep)
      = some v →
    v = (if c = true then Verdict.keep
      else
        match ow with
        | none => Verdict.remove
        | some workload => if workload.PodCount = 0 then Verdict.flag else Verdict.keep) := by
  intro h
  cases c with
  | true => simpa using h.symm
  | false =>
    cases ow with
    | none => simpa using h.symm
    | some w =>
      by_cases hp : w.PodCount = 0
      · simpa [hp] using h.symm
      · simpa [hp] using h.symm

theorem verdict_backed {g : Pkg} {ni : AppenderNamespaceInfo} {n : Node} {v : Verdict}
    (hty : n.NodeType ≠ .Service) (hty1 : n.NodeType ≠ .Aggregate)
    (ht : hasTraffic g n = false) (h : verdict g ni n = some v) :
    v = (if (n.NodeType != .Unknown && !g.IsOK n.Workload) = true then Verdict.keep
      else
        match getWorkload n.Workload ni with
        | none => Verdict.remove
        | some workload => if workload.PodCount = 0 then Verdict.flag else Verdict.keep) := by
  have hp := verdict_protocolLoop h
  unfold verdict at h
  rw [hp, ht] at h
  simp only [] at h
  cases hT : n.NodeType <;> rw [hT] at h hty hty1
  · exact backed_aux _ _ _ h
  · exact backed_aux _ _ _ h
  · exact backed_aux _ _ _ h
  · exact absurd rfl hty
  · exact absurd rfl hty1
  · exact backed_aux _ _ _ h

/-- The node as the pass leaves it when it removed `k` nodes: with its edges
filtered against the final map when `0 < k`, untouched otherwise. -/
theorem pass_verdict {g : Pkg} {ni : AppenderNamespaceInfo} {tm tm1 : TrafficMap} {k : Nat}
    (hwf : tm.WF) (h : pass g ni tm = some (tm1, k)) {id : String} {n : Node}
    (hget : tm.get? id = some n) :
    ∃ v, verdict g ni n = some v ∧
      tm1.get? id = (survivor g ni n).map
        (fun m => if 0 < k then { m with Edges := goodEdges tm1 m.Edges } else m) := by
  have hnp := pass_no_panic h (id, n) (TrafficMap.mem_of_get? hget)
  rcases hv : verdict g ni n with _ | v
  · exact absurd hv hnp
  · refine ⟨v, rfl, ?_⟩
    rw [pass_get? hwf h id, hget]
    rfl

theorem pass_absent {g : Pkg} {ni : AppenderNamespaceInfo} {tm tm1 : TrafficMap} {k : Nat}
    (h : pass g ni tm = some (tm1, k)) {id : String}
    (hget : tm1.get? id = none) (hin : id ∈ tm.keys) :
    0 < k ∧ EdgesConsistent tm1 := by
  rcases pass_cases h with ⟨rfl, hs⟩ | ⟨hk, r, _, rfl⟩
  · rw [TrafficMap.get?_eq_none_iff, sweep_zero_keys hs] at hget
    exact absurd hin hget
  · exact ⟨hk, cleanEdges_consistent r⟩

theorem storedSchedule_valid : storedSchedule.Valid :=
  fun _ _ => List.Perm.refl _

theorem reversedSchedule_valid : reversedSchedule.Valid :=
  fun _ tm => List.reverse_perm tm.keys

/-! ## The claims -/

/-- C1 (edge consistency of the Dead-Node Appender): for every traffic map whose
edges all lead to keys of the map, every workload list and every iteration
order, when `AppendGraph` returns, every edge of every node still in the map
leads to a key of the map (and the keys are still pairwise distinct). -/
theorem C1_AppendGraph_edges_consistent (g : Pkg) (sched : Schedule) (fuel : Nat)
    (tm : TrafficMap) (gi : AppenderGlobalInfo) (ni : AppenderNamespaceInfo) (r : Appended)
    (hs : sched.Valid) (hwf : tm.WF) (hc : EdgesConsistent tm)
    (hrun : AppendGraph g sched fuel tm gi ni = .returned r) :
    EdgesConsistent r.trafficMap ∧ r.trafficMap.WF := by
  rw [AppendGraph_eq g hs fuel hwf gi ni] at hrun
  by_cases h0 : tm.length = 0
  · simp only [h0, if_true, Run.returned.injEq] at hrun
    subst hrun
    exact ⟨hc, hwf⟩
  · simp only [h0, if_false] at hrun
    rcases hw : withWorkloadList gi ni with _ | ni1
    · rw [hw] at hrun; simp at hrun
    · rw [hw] at hrun
      simp only [] at hrun
      obtain ⟨_, tmL, hwfL, hcL, hp⟩ :=
        prune_returned g ni1 EdgesConsistent
          (fun _ _ _ hwf0 hc0 hp0 => pass_consistent hwf0 hc0 hp0) fuel tm [] r hwf hc hrun
      exact ⟨pass_consistent hwfL hcL hp, pass_WF hwfL hp⟩

/-- Witness of C1 on the sample map: the run removes `b`, then `s`, and leaves
`a` without edges. -/
theorem C1_AppendGraph_edges_consistent_witness :
    storedSchedule.Valid ∧ sampleMap.WF ∧ EdgesConsistent sampleMap ∧
      AppendGraph samplePkg storedSchedule 4 sampleMap failingGlobalInfo sampleInfo
        = .returned sampleResult ∧
      EdgesConsistent sampleResult.trafficMap ∧ sampleResult.trafficMap.WF :=
  ⟨storedSchedule_valid, by decide, by decide, by decide,
    C1_AppendGraph_edges_consistent samplePkg storedSchedule 4 sampleMap failingGlobalInfo
      sampleInfo sampleResult storedSchedule_valid (by decide) (by decide) (by decide)⟩

theorem AppendGraph_returned (g : Pkg) {sched : Schedule} (hs : sched.Valid) {fuel : Nat}
    {tm : TrafficMap} (hwf : tm.WF) {gi : AppenderGlobalInfo} {ni : AppenderNamespaceInfo}
    {r : Appended} (hrun : AppendGraph g sched fuel tm gi ni = .returned r) :
    (tm.length = 0 ∧ r = ⟨tm, ni, []⟩) ∨
      (tm.length ≠ 0 ∧ ∃ ni1, withWorkloadList gi ni = some ni1 ∧
        prune g ni1 fuel tm [] = .returned r) := by
  rw [AppendGraph_eq g hs fuel hwf gi ni] at hrun
  by_cases h0 : tm.length = 0
  · simp only [h0, if_true, Run.returned.injEq] at hrun
    exact Or.inl ⟨h0, hrun.symm⟩
  · simp only [h0, if_false] at hrun
    rcases hw : withWorkloadList gi ni with _ | ni1
    · rw [hw] at hrun; simp at hrun
    · rw [hw] at hrun
      exact Or.inr ⟨h0, ni1, rfl, hrun⟩

theorem length_ne_zero_of_get? {tm : TrafficMap} {id : String} {n : Node}
    (h : tm.get? id = some n) : tm.length ≠ 0 := by
  intro h0
  have : tm = [] := List.length_eq_zero.1 h0
  subst this
  simp [TrafficMap.get?] at h

/-- C2 (dead node removal, amended): a Workload-type node whose workload name is
OK, is absent from the namespace's workload list, and that has no inbound or
outbound rate above zero, is removed by the pass, and after the pass no
surviving node has an edge to it. -/
theorem C2_dead_workload_removed (g : Pkg) (order1 order2 : Order) (tm : TrafficMap)
    (ni : AppenderNamespaceInfo) (wl : models.WorkloadList) (id : String) (n : Node)
    (tm1 : TrafficMap) (k : Nat)
    (h1 : order1.Valid) (h2 : order2.Valid) (hwf : tm.WF)
    (hget : tm.get? id = some n) (hty : n.NodeType = .Workload)
    (hok : g.IsOK n.Workload = true)
    (hlist : getWorkloadList ni = some wl)
    (habsent : ∀ w ∈ wl.Workloads, w.Name ≠ n.Workload)
    (ht : hasTraffic g n = false)
    (hpass : applyDeadNodes g order1 order2 tm ni = some (tm1, k)) :
    tm1.get? id = none ∧ ∀ kv ∈ tm1, ∀ e ∈ kv.2.Edges, e.Dest ≠ id := by
  rw [applyDeadNodes_eq_pass g h1 h2 hwf ni] at hpass
  obtain ⟨v, hv, hg1⟩ := pass_verdict hwf hpass hget
  have hnf : getWorkload n.Workload ni = none := by
    unfold getWorkload
    rw [hlist]
    simp only [List.find?_eq_none, decide_eq_true_eq]
    exact habsent
  have hv1 := verdict_backed (by rw [hty]; decide) (by rw [hty]; decide) ht hv
  rw [hnf, hok] at hv1
  simp only [Bool.not_true, Bool.and_false, Bool.false_eq_true, if_false] at hv1
  subst hv1
  have hnone : tm1.get? id = none := by
    rw [hg1]
    simp [survivor, hv]
  refine ⟨hnone, ?_⟩
  have hin : id ∈ tm.keys := TrafficMap.isSome_get?_iff.1 (by rw [hget]; rfl)
  obtain ⟨_, hc⟩ := pass_absent hpass hnone hin
  intro kv hkv e he hd
  have := hc kv hkv e he
  rw [hd, hnone] at this
  simp at this

/-- Witness of C2 on the sample map: the first pass removes `b` and the edge
from `s` to `b`. -/
theorem C2_dead_workload_removed_witness :
    Order.stored.Valid ∧ Order.reversed.Valid ∧ sampleMap.WF ∧
      sampleMap.get? "b" = some (sampleNode "b" .Workload "wb" [] []) ∧
      (sampleNode "b" .Workload "wb" [] []).NodeType = .Workload ∧
      samplePkg.IsOK (sampleNode "b" .Workload "wb" [] []).Workload = true ∧
      getWorkloadList sampleInfo = some ⟨"ns", [⟨"wa", 1⟩]⟩ ∧
      (∀ w ∈ (⟨"ns", [⟨"wa", 1⟩]⟩ : models.WorkloadList).Workloads,
        w.Name ≠ (sampleNode "b" .Workload "wb" [] []).Workload) ∧
      hasTraffic samplePkg (sampleNode "b" .Workload "wb" [] []) = false ∧
      applyDeadNodes samplePkg Order.stored Order.reversed sampleMap sampleInfo
        = some (samplePass1, 1) ∧
      (samplePass1.get? "b" = none ∧ ∀ kv ∈ samplePass1, ∀ e ∈ kv.2.Edges, e.Dest ≠ "b") :=
  ⟨storedSchedule_valid 0, reversedSchedule_valid 0, by decide, by decide, by decide, by decide,
    by decide, by decide, by decide, by decide,
    C2_dead_workload_removed samplePkg Order.stored Order.reversed sampleMap sampleInfo
      ⟨"ns", [⟨"wa", 1⟩]⟩ "b" (sampleNode "b" .Workload "wb" [] []) samplePass1 1
      (storedSchedule_valid 0) (reversedSchedule_valid 0) (by decide) (by decide) (by decide)
      (by decide) (by decide) (by decide) (by decide) (by decide)⟩

/-- Counterexample to C2 as stated: the only node of `placeholderMap` is of type
Workload, its workload name `unknown` is absent from the workload list, it has
no rate at all, and yet the pass keeps it and removes nothing. -/
theorem C2_counterexample :
    placeholderMap.get? "w" = some (sampleNode "w" .Workload "unknown" [] []) ∧
      (sampleNode "w" .Workload "unknown" [] []).NodeType = .Workload ∧
      getWorkloadList sampleInfo = some ⟨"ns", [⟨"wa", 1⟩]⟩ ∧
      (∀ w ∈ (⟨"ns", [⟨"wa", 1⟩]⟩ : models.WorkloadList).Workloads,
        w.Name ≠ (sampleNode "w" .Workload "unknown" [] []).Workload) ∧
      hasTraffic samplePkg (sampleNode "w" .Workload "unknown" [] []) = false ∧
      applyDeadNodes samplePkg Order.stored Order.stored placeholderMap sampleInfo
        = some (placeholderMap, 0) ∧
      placeholderMap.get? "w" ≠ none := by
  decide

theorem flagged_pass_step {g : Pkg} {ni : AppenderNamespaceInfo} {tm tm1 : TrafficMap}
    {k : Nat} {id workload : String} {w : models.WorkloadListItem}
    (hok : g.IsOK workload = true) (hfound : getWorkload workload ni = some w)
    (hpod : w.PodCount = 0) (hwf : tm.WF)
    (hI : ∃ m, tm.get? id = some m ∧ m.NodeType = .Workload ∧ m.Workload = workload ∧
      (hasTraffic g m = false ∨ m.Metadata.get? g.IsDead = some (.bool true)))
    (hpass : pass g ni tm = some (tm1, k)) :
    ∃ m, tm1.get? id = some m ∧ m.NodeType = .Workload ∧ m.Workload = workload ∧
      m.Metadata.get? g.IsDead = some (.bool true) := by
  obtain ⟨m, hget, hty, hwl, hdis⟩ := hI
  obtain ⟨v, hv, hg1⟩ := pass_verdict hwf hpass hget
  cases ht : hasTraffic g m with
  | true =>
    have hv1 := verdict_of_traffic ht hv
    subst hv1
    have hd : m.Metadata.get? g.IsDead = some (.bool true) := by
      rcases hdis with h | h
      · rw [ht] at h; simp at h
      · exact h
    refine ⟨if 0 < k then { m with Edges := goodEdges tm1 m.Edges } else m, ?_, ?_, ?_, ?_⟩
    · rw [hg1]; simp [survivor, hv]
    · split_ifs <;> exact hty
    · split_ifs <;> exact hwl
    · split_ifs <;> exact hd
  | false =>
    have hv1 := verdict_backed (by rw [hty]; decide) (by rw [hty]; decide) ht hv
    rw [hwl, hfound, hok] at hv1
    simp only [Bool.not_true, Bool.and_false, Bool.false_eq_true, if_false, hpod, if_true] at hv1
    subst hv1
    refine ⟨if 0 < k then { flagged g m with Edges := goodEdges tm1 (flagged g m).Edges }
      else flagged g m, ?_, ?_, ?_, ?_⟩
    · rw [hg1]; simp [survivor, hv]
    · split_ifs <;> exact hty
    · split_ifs <;> exact hwl
    · split_ifs <;> exact get?_set_self _ _ _

/-- C3 (flagged, not removed; amended): a Workload-type node without inbound or
outbound rate above zero, whose workload name is OK and is found in the
namespace's workload list with `PodCount == 0`, is still in the map when
`AppendGraph` returns and its metadata holds the dead flag set to true. -/
theorem C3_idle_workload_flagged (g : Pkg) (sched : Schedule) (fuel : Nat) (tm : TrafficMap)
    (gi : AppenderGlobalInfo) (ni ni1 : AppenderNamespaceInfo) (id : String) (n : Node)
    (w : models.WorkloadListItem) (r : Appended)
    (hs : sched.Valid) (hwf : tm.WF)
    (hget : tm.get? id = some n) (hty : n.NodeType = .Workload)
    (hok : g.IsOK n.Workload = true) (ht : hasTraffic g n = false)
    (hni : withWorkloadList gi ni = some ni1)
    (hfound : getWorkload n.Workload ni1 = some w) (hpod : w.PodCount = 0)
    (hrun : AppendGraph g sched fuel tm gi ni = .returned r) :
    ∃ n1, r.trafficMap.get? id = some n1 ∧
      n1.Metadata.get? g.IsDead = some (.bool true) := by
  rcases AppendGraph_returned g hs hwf hrun with ⟨h0, _⟩ | ⟨_, ni2, hni2, hpr⟩
  · exact absurd h0 (length_ne_zero_of_get? hget)
  · rw [hni] at hni2
    simp only [Option.some.injEq] at hni2
    subst hni2
    obtain ⟨_, tmL, hwfL, hIL, hp⟩ :=
      prune_returned g ni1
        (fun t => ∃ m, t.get? id = some m ∧ m.NodeType = .Workload ∧ m.Workload = n.Workload ∧
          (hasTraffic g m = false ∨ m.Metadata.get? g.IsDead = some (.bool true)))
        (fun t t1 k hwf0 hI0 hp0 => by
          obtain ⟨m, h1, h2, h3, h4⟩ := flagged_pass_step hok hfound hpod hwf0 hI0 hp0
          exact ⟨m, h1, h2, h3, Or.inr h4⟩)
        fuel tm [] r hwf ⟨n, hget, hty, rfl, Or.inl ht⟩ hpr
    obtain ⟨m, h1, _, _, h4⟩ := flagged_pass_step hok hfound hpod hwfL hIL hp
    exact ⟨m, h1, h4⟩

/-- Witness of C3: the idle workload `wa` of `idleMap` is kept and flagged. -/
theorem C3_idle_workload_flagged_witness :
    storedSchedule.Valid ∧ idleMap.WF ∧
      idleMap.get? "w" = some (sampleNode "w" .Workload "wa" [] []) ∧
      (sampleNode "w" .Workload "wa" [] []).NodeType = .Workload ∧
      samplePkg.IsOK (sampleNode "w" .Workload "wa" [] []).Workload = true ∧
      hasTraffic samplePkg (sampleNode "w" .Workload "wa" [] []) = false ∧
      withWorkloadList failingGlobalInfo idleInfo = some idleInfo ∧
      getWorkload (sampleNode "w" .Workload "wa" [] []).Workload idleInfo = some ⟨"wa", 0⟩ ∧
      (⟨"wa", 0⟩ : models.WorkloadListItem).PodCount = 0 ∧
      AppendGraph samplePkg storedSchedule 1 idleMap failingGlobalInfo idleInfo
        = .returned ⟨[("w", sampleNode "w" .Workload "wa" [] [("isDead", .bool true)])],
            idleInfo, [0]⟩ ∧
      ∃ n1, TrafficMap.get? [("w", sampleNode "w" .Workload "wa" [] [("isDead", .bool true)])] "w"
          = some n1 ∧
        n1.Metadata.get? samplePkg.IsDead = some (.bool true) :=
  ⟨storedSchedule_valid, by decide, by decide, by decide, by decide, by decide, by decide,
    by decide, by decide, by decide,
    C3_idle_workload_flagged samplePkg storedSchedule 1 idleMap failingGlobalInfo idleInfo
      idleInfo "w" (sampleNode "w" .Workload "wa" [] []) ⟨"wa", 0⟩
      ⟨[("w", sampleNode "w" .Workload "wa" [] [("isDead", .bool true)])], idleInfo, [0]⟩
      storedSchedule_valid (by decide) (by decide) (by decide) (by decide) (by decide)
      (by decide) (by decide) (by decide) (by decide)⟩

/-- Counterexample to C3 as stated. First, the only node of `busyMap` is of type
Workload and its workload `wa` is found in the list with `PodCount = 0`, but it
has inbound traffic: `AppendGraph` returns the map unchanged, without any dead
flag. Second, the only node of `placeholderMap` is of type Workload and its
workload name `unknown` is in the list with `PodCount = 0`, but the name is not
OK: again the map is returned unchanged and unflagged. -/
theorem C3_counterexample :
    (busyMap.get? "w"
        = some (sampleNode "w" .Workload "wa" [] [("httpIn", .float64 (.finite 1 0))]) ∧
      (⟨"wa", 0⟩ : models.WorkloadListItem) ∈
        (⟨"ns", [⟨"wa", 0⟩, ⟨"unknown", 0⟩]⟩ : models.WorkloadList).Workloads ∧
      getWorkloadList idleInfo = some ⟨"ns", [⟨"wa", 0⟩, ⟨"unknown", 0⟩]⟩ ∧
      AppendGraph samplePkg storedSchedule 1 busyMap failingGlobalInfo idleInfo
        = .returned ⟨busyMap, idleInfo, [0]⟩ ∧
      (busyMap.get? "w").bind (fun n => n.Metadata.get? samplePkg.IsDead) = none) ∧
    (placeholderMap.get? "w" = some (sampleNode "w" .Workload "unknown" [] []) ∧
      (⟨"unknown", 0⟩ : models.WorkloadListItem) ∈
        (⟨"ns", [⟨"wa", 0⟩, ⟨"unknown", 0⟩]⟩ : models.WorkloadList).Workloads ∧
      AppendGraph samplePkg storedSchedule 1 placeholderMap failingGlobalInfo idleInfo
        = .returned ⟨placeholderMap, idleInfo, [0]⟩ ∧
      (placeholderMap.get? "w").bind (fun n => n.Metadata.get? samplePkg.IsDead) = none) := by
  decide

theorem traffic_pass_step {g : Pkg} {ni : AppenderNamespaceInfo} {tm tm1 : TrafficMap}
    {k : Nat} {id : String} {n : Node} (ht : hasTraffic g n = true) (hwf : tm.WF)
    (hI : ∃ es, tm.get? id = some { n with Edges := es })
    (hpass : pass g ni tm = some (tm1, k)) :
    ∃ es, tm1.get? id = some { n with Edges := es } := by
  obtain ⟨es, hget⟩ := hI
  obtain ⟨v, hv, hg1⟩ := pass_verdict hwf hpass hget
  have hv1 := verdict_of_traffic (n := { n with Edges := es }) ht hv
  subst hv1
  rw [hg1]
  simp only [survivor, hv, Option.map_some']
  by_cases hk : 0 < k
  · exact ⟨goodEdges tm1 es, by simp only [hk, if_true]⟩
  · exact ⟨es, by simp only [hk, if_false]⟩

/-- C4 (a node with traffic is never dead): a node of any type whose metadata
holds, for some configured protocol, an inbound or outbound rate that is a
`float64` above zero, is still in the map when `AppendGraph` returns, with
every field but its edge list as before, whatever the workload list, the
iteration order and the number of passes. -/
theorem C4_node_with_traffic_kept (g : Pkg) (sched : Schedule) (fuel : Nat) (tm : TrafficMap)
    (gi : AppenderGlobalInfo) (ni : AppenderNamespaceInfo) (id : String) (n : Node)
    (r : Appended)
    (hs : sched.Valid) (hwf : tm.WF) (hget : tm.get? id = some n)
    (ht : hasTraffic g n = true)
    (hrun : AppendGraph g sched fuel tm gi ni = .returned r) :
    ∃ es, r.trafficMap.get? id = some { n with Edges := es } := by
  rcases AppendGraph_returned g hs hwf hrun with ⟨h0, _⟩ | ⟨_, ni1, _, hpr⟩
  · exact absurd h0 (length_ne_zero_of_get? hget)
  · obtain ⟨_, tmL, hwfL, hIL, hp⟩ :=
      prune_returned g ni1 (fun t => ∃ es, t.get? id = some { n with Edges := es })
        (fun t t1 k hwf0 hI0 hp0 => traffic_pass_step ht hwf0 hI0 hp0)
        fuel tm [] r hwf ⟨n.Edges, hget⟩ hpr
    exact traffic_pass_step ht hwfL hIL hp

/-- Witness of C4 on the sample map: `a` has outbound HTTP traffic and survives
the three passes, losing only its edge. -/
theorem C4_node_with_traffic_kept_witness :
    reversedSchedule.Valid ∧ sampleMap.WF ∧
      sampleMap.get? "a"
        = some (sampleNode "a" .Workload "wa" ["s"] [("httpOut", .float64 (.finite 1 0))]) ∧
      hasTraffic samplePkg
        (sampleNode "a" .Workload "wa" ["s"] [("httpOut", .float64 (.finite 1 0))]) = true ∧
      AppendGraph samplePkg reversedSchedule 3 sampleMap failingGlobalInfo sampleInfo
        = .returned sampleResult ∧
      ∃ es, sampleResult.trafficMap.get? "a" = some
        { sampleNode "a" .Workload "wa" ["s"] [("httpOut", .float64 (.finite 1 0))] with
          Edges := es } :=
  ⟨reversedSchedule_valid, by decide, by decide, by decide, by decide,
    C4_node_with_traffic_kept samplePkg reversedSchedule 3 sampleMap failingGlobalInfo
      sampleInfo "a" (sampleNode "a" .Workload "wa" ["s"] [("httpOut", .float64 (.finite 1 0))])
      sampleResult reversedSchedule_valid (by decide) (by decide) (by decide) (by decide)⟩

/-- C5 (service-node policy): in one pass, a Service-type node without traffic
is removed if and only if it has no outgoing edges, no service-entry key and no
egress-cluster key in its metadata; otherwise it is kept, with every field but
its edge list as before. -/
theorem C5_service_node_policy (g : Pkg) (order1 order2 : Order) (tm : TrafficMap)
    (ni : AppenderNamespaceInfo) (id : String) (n : Node) (tm1 : TrafficMap) (k : Nat)
    (h1 : order1.Valid) (h2 : order2.Valid) (hwf : tm.WF)
    (hget : tm.get? id = some n) (hty : n.NodeType = .Service)
    (ht : hasTraffic g n = false)
    (hpass : applyDeadNodes g order1 order2 tm ni = some (tm1, k)) :
    (tm1.get? id = none ↔
        (n.Edges = [] ∧ n.Metadata.get? g.IsServiceEntry = none ∧
          n.Metadata.get? g.IsEgressCluster = none)) ∧
      (tm1.get? id ≠ none → ∃ es, tm1.get? id = some { n with Edges := es }) := by
  rw [applyDeadNodes_eq_pass g h1 h2 hwf ni] at hpass
  obtain ⟨v, hv, hg1⟩ := pass_verdict hwf hpass hget
  have hv1 := verdict_service hty ht hv
  have hE : (n.Edges.length > 0) ↔ n.Edges ≠ [] := List.length_pos
  by_cases hc : n.Edges = [] ∧ n.Metadata.get? g.IsServiceEntry = none ∧
      n.Metadata.get? g.IsEgressCluster = none
  · obtain ⟨he, hse, hec⟩ := hc
    rw [he, hse, hec] at hv1
    simp only [List.length_nil, gt_iff_lt, lt_self_iff_false, if_false, Option.isSome_none,
      Bool.false_eq_true] at hv1
    subst hv1
    have hnone : tm1.get? id = none := by rw [hg1]; simp [survivor, hv]
    exact ⟨⟨fun _ => ⟨he, hse, hec⟩, fun _ => hnone⟩, fun hne => absurd hnone hne⟩
  · have hkeep : v = .keep := by
      rw [hv1]
      by_cases he : n.Edges = []
      · by_cases hse : n.Metadata.get? g.IsServiceEntry = none
        · have hec : n.Metadata.get? g.IsEgressCluster ≠ none := fun h => hc ⟨he, hse, h⟩
          have : (n.Metadata.get? g.IsEgressCluster).isSome = true :=
            Option.isSome_iff_ne_none.2 hec
          simp [he, hse, this]
        · have : (n.Metadata.get? g.IsServiceEntry).isSome = true :=
            Option.isSome_iff_ne_none.2 hse
          simp [he, this]
      · have : n.Edges.length > 0 := hE.2 he
        simp [this]
    subst hkeep
    have hsome : tm1.get? id
        = some (if 0 < k then { n with Edges := goodEdges tm1 n.Edges } else n) := by
      rw [hg1]; simp [survivor, hv]
    refine ⟨⟨fun hn => ?_, fun h => absurd h hc⟩, fun _ => ?_⟩
    · rw [hsome] at hn; simp at hn
    · rw [hsome]
      by_cases hk : 0 < k
      · exact ⟨goodEdges tm1 n.Edges, by simp only [hk, if_true]⟩
      · exact ⟨n.Edges, by simp only [hk, if_false]⟩

/-- Witness of C5 on the first-pass result of the sample map: the service `s`
has lost its only edge, has no flag, and is removed by the next pass. -/
theorem C5_service_node_policy_witness :
    Order.stored.Valid ∧ Order.reversed.Valid ∧ samplePass1.WF ∧
      samplePass1.get? "s" = some (sampleNode "s" .Service "" [] []) ∧
      (sampleNode "s" .Service "" [] []).NodeType = .Service ∧
      hasTraffic samplePkg (sampleNode "s" .Service "" [] []) = false ∧
      applyDeadNodes samplePkg Order.stored Order.reversed samplePass1 sampleInfo
        = some (sampleResult.trafficMap, 1) ∧
      ((sampleResult.trafficMap.get? "s" = none ↔
          ((sampleNode "s" .Service "" [] []).Edges = [] ∧
            (sampleNode "s" .Service "" [] []).Metadata.get? samplePkg.IsServiceEntry = none ∧
            (sampleNode "s" .Service "" [] []).Metadata.get? samplePkg.IsEgressCluster = none)) ∧
        (sampleResult.trafficMap.get? "s" ≠ none →
          ∃ es, sampleResult.trafficMap.get? "s"
            = some { sampleNode "s" .Service "" [] [] with Edges := es })) :=
  ⟨storedSchedule_valid 0, reversedSchedule_valid 0, by decide, by decide, by decide, by decide,
    by decide,
    C5_service_node_policy samplePkg Order.stored Order.reversed samplePass1 sampleInfo "s"
      (sampleNode "s" .Service "" [] []) sampleResult.trafficMap 1
      (storedSchedule_valid 0) (reversedSchedule_valid 0) (by decide) (by decide) (by decide)
      (by decide) (by decide)⟩

/-- C6 (workload-less nodes are kept, unknown is not saved): in one pass, a node
of type App, VersionedApp or Workload whose workload name is not OK stays in
the map with every field but its edge list as before (so it is neither removed
nor flagged), whatever the workload list; a node of type Unknown without
traffic whose workload is not found in the workload list is removed. -/
theorem C6_workloadless_kept_unknown_removed (g : Pkg) (order1 order2 : Order)
    (tm : TrafficMap) (ni : AppenderNamespaceInfo) (id : String) (n : Node) (tm1 : TrafficMap)
    (k : Nat)
    (h1 : order1.Valid) (h2 : order2.Valid) (hwf : tm.WF) (hget : tm.get? id = some n)
    (hpass : applyDeadNodes g order1 order2 tm ni = some (tm1, k)) :
    ((n.NodeType = .App ∨ n.NodeType = .VersionedApp ∨ n.NodeType = .Workload) →
        g.IsOK n.Workload = false → ∃ es, tm1.get? id = some { n with Edges := es }) ∧
      (n.NodeType = .Unknown → hasTraffic g n = false →
        getWorkload n.Workload ni = none → tm1.get? id = none) := by
  rw [applyDeadNodes_eq_pass g h1 h2 hwf ni] at hpass
  obtain ⟨v, hv, hg1⟩ := pass_verdict hwf hpass hget
  constructor
  · intro hty hok
    have hkeep : v = .keep := by
      cases ht : hasTraffic g n with
      | true => exact verdict_of_traffic ht hv
      | false =>
        have hv1 := verdict_backed (by rcases hty with h | h | h <;> rw [h] <;> decide)
          (by rcases hty with h | h | h <;> rw [h] <;> decide) ht hv
        rw [hok] at hv1
        rcases hty with h | h | h <;> rw [h] at hv1 <;> exact hv1
    subst hkeep
    rw [hg1]
    simp only [survivor, hv, Option.map_some']
    by_cases hk : 0 < k
    · exact ⟨goodEdges tm1 n.Edges, by simp only [hk, if_true]⟩
    · exact ⟨n.Edges, by simp only [hk, if_false]⟩
  · intro hty ht hnf
    have hv1 := verdict_backed (by rw [hty]; decide) (by rw [hty]; decide) ht hv
    rw [hty, hnf] at hv1
    have hrem : v = .remove := hv1
    subst hrem
    rw [hg1]
    simp [survivor, hv]

/-- Witness of C6 on `mixedMap`: the versioned-app node `p` without workload
name is kept as it was, up to its edges, and the Unknown-type node `u` is
removed. -/
theorem C6_workloadless_kept_unknown_removed_witness :
    Order.reversed.Valid ∧ Order.stored.Valid ∧ mixedMap.WF ∧
      mixedMap.get? "p" = some (sampleNode "p" .VersionedApp "" ["u"] []) ∧
      mixedMap.get? "u" = some (sampleNode "u" .Unknown "unknown" [] []) ∧
      applyDeadNodes samplePkg Order.reversed Order.stored mixedMap sampleInfo
        = some (mixedPass1, 1) ∧
      (∃ es, mixedPass1.get? "p"
        = some { sampleNode "p" .VersionedApp "" ["u"] [] with Edges := es }) ∧
      mixedPass1.get? "u" = none :=
  ⟨reversedSchedule_valid 0, storedSchedule_valid 0, by decide, by decide, by decide, by decide,
    (C6_workloadless_kept_unknown_removed samplePkg Order.reversed Order.stored mixedMap
      sampleInfo "p" (sampleNode "p" .VersionedApp "" ["u"] []) mixedPass1 1
      (reversedSchedule_valid 0) (storedSchedule_valid 0) (by decide) (by decide)
      (by decide)).1 (Or.inr (Or.inl (by decide))) (by decide),
    (C6_workloadless_kept_unknown_removed samplePkg Order.reversed Order.stored mixedMap
      sampleInfo "u" (sampleNode "u" .Unknown "unknown" [] []) mixedPass1 1
      (reversedSchedule_valid 0) (storedSchedule_valid 0) (by decide) (by decide)
      (by decide)).2 (by decide) (by decide) (by decide)⟩

/-! ## The fixed point -/

theorem rateLoop_set {key : String} (v : Value) (md : Metadata) (rs : List Rate)
    (h : ∀ r ∈ rs, (r.IsIn || r.IsOut) = true → r.Name ≠ key) :
    rateLoop (Metadata.set key v md) rs = rateLoop md rs := by
  induction rs with
  | nil => rfl
  | cons r rs ih =>
    have ih1 := ih (fun r0 hr0 => h r0 (List.mem_cons_of_mem _ hr0))
    rw [rateLoop, rateLoop, ih1]
    by_cases hio : (r.IsIn || r.IsOut) = true
    · rw [get?_set_ne v md (h r (List.mem_cons_self _ _) hio)]
    · rw [if_neg hio, if_neg hio]

theorem protocolLoop_set {key : String} (v : Value) (md : Metadata) (ps : List Protocol)
    (h : ∀ p ∈ ps, ∀ r ∈ p.NodeRates, (r.IsIn || r.IsOut) = true → r.Name ≠ key) :
    protocolLoop (Metadata.set key v md) ps = protocolLoop md ps := by
  induction ps with
  | nil => rfl
  | cons p ps ih =>
    rw [protocolLoop, protocolLoop, ih (fun p0 hp0 => h p0 (List.mem_cons_of_mem _ hp0)),
      rateLoop_set v md p.NodeRates (h p (List.mem_cons_self _ _))]

theorem verdict_flagged {g : Pkg} (hfresh : DeadKeyFresh g) {ni : AppenderNamespaceInfo}
    {n : Node} (h : verdict g ni n = some .flag) : verdict g ni (flagged g n) = some .flag := by
  have hp : protocolLoop (flagged g n).Metadata g.Protocols
      = protocolLoop n.Metadata g.Protocols :=
    protocolLoop_set _ _ _ hfresh
  have hpl := verdict_protocolLoop h
  have htr : hasTraffic g n = false := by
    cases ht : hasTraffic g n with
    | false => rfl
    | true => exact absurd (verdict_of_traffic ht h) (by decide)
  rw [htr] at hpl
  have hgoal : verdict g ni (flagged g n) =
      (match n.NodeType with
        | .Aggregate => some Verdict.keep
        | .Service =>
          if (flagged g n).Edges.length > 0 then some .keep
          else if ((flagged g n).Metadata.get? g.IsServiceEntry).isSome then some .keep
          else if ((flagged g n).Metadata.get? g.IsEgressCluster).isSome then some .keep
          else some .remove
        | _ =>
          if n.NodeType != .Unknown && !g.IsOK n.Workload then some .keep
          else
            match getWorkload n.Workload ni with
            | none => some .remove
            | some workload => if workload.PodCount = 0 then some .flag else some .keep) := by
    unfold verdict
    rw [hp, hpl]
    rfl
  rw [hgoal]
  unfold verdict at h
  rw [hpl] at h
  simp only [] at h
  cases hty : n.NodeType <;> (try rw [hty] at h) <;> (try simp only [] at h ⊢) <;>
    first
    | exact h
    | (exfalso; split_ifs at h <;> simp at h)

theorem flagged_flagged (g : Pkg) (n : Node) : flagged g (flagged g n) = flagged g n := by
  simp only [flagged, set_set]

theorem sweep_fixed {g : Pkg} (hfresh : DeadKeyFresh g) (ni : AppenderNamespaceInfo) :
    ∀ (tm r : TrafficMap), sweep g ni tm = some (r, 0) → sweep g ni r = some (r, 0) := by
  intro tm
  induction tm with
  | nil =>
    intro r h
    rw [sweep_nil] at h
    simp only [Option.some.injEq, Prod.mk.injEq] at h
    rw [← h.1]
    rfl
  | cons kv rest ih =>
    obtain ⟨id, n⟩ := kv
    intro r h
    rw [sweep_cons] at h
    rcases hs : sweep g ni rest with _ | ⟨r1, k1⟩
    · rw [hs] at h; simp at h
    · rw [hs] at h
      rcases hv : verdict g ni n with _ | v
      · rw [hv] at h; simp at h
      · rw [hv] at h
        cases v <;> simp only [Option.some.injEq, Prod.mk.injEq] at h
        · obtain ⟨rfl, rfl⟩ := h
          rw [sweep_cons, ih r1 hs, hv]
        · obtain ⟨rfl, rfl⟩ := h
          rw [sweep_cons, ih r1 hs, verdict_flagged hfresh hv, flagged_flagged]
        · omega

theorem pass_fixed {g : Pkg} (hfresh : DeadKeyFresh g) {ni : AppenderNamespaceInfo}
    {tm r : TrafficMap} (h : pass g ni tm = some (r, 0)) : pass g ni r = some (r, 0) := by
  rcases pass_cases h with ⟨_, hs⟩ | ⟨hk, _⟩
  · unfold pass
    rw [sweep_fixed hfresh ni tm r hs]
    simp
  · omega

theorem withWorkloadList_fixed {gi : AppenderGlobalInfo} {ni ni1 : AppenderNamespaceInfo}
    (h : withWorkloadList gi ni = some ni1) : withWorkloadList gi ni1 = some ni1 := by
  unfold withWorkloadList getWorkloadList at h ⊢
  rcases hc : ni.VendorWorkloadList with _ | wl
  · rw [hc] at h
    simp only [] at h
    rcases hg : gi.GetWorkloadList ni.Namespace with e | wl
    · rw [hg] at h; simp at h
    · rw [hg] at h
      simp only [Option.some.injEq] at h
      subst h
      rfl
  · rw [hc] at h
    simp only [Option.some.injEq] at h
    subst h
    rw [hc]

/-- C7 (idempotence of the Dead-Node Appender): when the dead-flag key is not
the name of an inbound or outbound rate, running `AppendGraph` again on what a
first run returned, with the same workload list and under any iteration order,
returns the very same traffic map and context, and every pass of the second
run removes zero nodes. -/
theorem C7_AppendGraph_idempotent (g : Pkg) (sched1 sched2 : Schedule) (fuel1 fuel2 : Nat)
    (tm : TrafficMap) (gi : AppenderGlobalInfo) (ni : AppenderNamespaceInfo) (r : Appended)
    (hfresh : DeadKeyFresh g) (hs1 : sched1.Valid) (hs2 : sched2.Valid) (hwf : tm.WF)
    (hfuel : 0 < fuel2)
    (hrun : AppendGraph g sched1 fuel1 tm gi ni = .returned r) :
    ∃ passes, AppendGraph g sched2 fuel2 r.trafficMap gi r.namespaceInfo
        = .returned ⟨r.trafficMap, r.namespaceInfo, passes⟩ ∧
      (passes = [] ∨ passes = [0]) := by
  rcases AppendGraph_returned g hs1 hwf hrun with ⟨h0, rfl⟩ | ⟨_, ni1, hni1, hpr⟩
  · refine ⟨[], ?_, Or.inl rfl⟩
    unfold AppendGraph
    simp only [h0, if_true]
  · obtain ⟨hni, tmL, hwfL, _, hp⟩ :=
      prune_returned g ni1 (fun _ => True) (fun _ _ _ _ _ _ => trivial) fuel1 tm [] r hwf
        trivial hpr
    have hwfr : r.trafficMap.WF := pass_WF hwfL hp
    have hfix := pass_fixed hfresh hp
    rw [AppendGraph_eq g hs2 fuel2 hwfr gi r.namespaceInfo, hni, withWorkloadList_fixed hni1]
    by_cases h0 : r.trafficMap.length = 0
    · exact ⟨[], by simp only [h0, if_true], Or.inl rfl⟩
    · refine ⟨[0], ?_, Or.inr rfl⟩
      simp only [h0, if_false]
      obtain ⟨f, rfl⟩ : ∃ f, fuel2 = f + 1 := ⟨fuel2 - 1, by omega⟩
      rw [prune, hfix]
      simp

/-- Witness of C7 on the sample map: a second run on the result of the first,
under another iteration order, changes nothing. -/
theorem C7_AppendGraph_idempotent_witness :
    DeadKeyFresh samplePkg ∧ storedSchedule.Valid ∧ reversedSchedule.Valid ∧ sampleMap.WF ∧
      0 < 1 ∧
      AppendGraph samplePkg storedSchedule 3 sampleMap failingGlobalInfo sampleInfo
        = .returned sampleResult ∧
      ∃ passes, AppendGraph samplePkg reversedSchedule 1 sampleResult.trafficMap
          failingGlobalInfo sampleResult.namespaceInfo
          = .returned ⟨sampleResult.trafficMap, sampleResult.namespaceInfo, passes⟩ ∧
        (passes = [] ∨ passes = [0]) :=
  ⟨by decide, storedSchedule_valid, reversedSchedule_valid, by decide, by decide, by decide,
    C7_AppendGraph_idempotent samplePkg storedSchedule reversedSchedule 3 1 sampleMap
      failingGlobalInfo sampleInfo sampleResult (by decide) storedSchedule_valid
      reversedSchedule_valid (by decide) (by decide) (by decide)⟩

theorem length_le_sum_of_pos (ks : List Nat) (h : ∀ k ∈ ks, 0 < k) : ks.length ≤ ks.sum := by
  induction ks with
  | nil => simp
  | cons k ks ih =>
    have h1 := h k (List.mem_cons_self _ _)
    have h2 := ih (fun j hj => h j (List.mem_cons_of_mem _ hj))
    simp only [List.length_cons, List.sum_cons]
    omega

/-- C8 (termination and monotonic shrink): the value returned by a pass is the
decrease of the map's size in that pass, so the size never increases; with
fuel above the number of nodes the pruning loop of `AppendGraph` never runs
out of fuel; and when `AppendGraph` returns, it has made at most `n + 1` calls
of `applyDeadNodes`, each of them but the last has removed at least one node,
the last has removed none, and the removals add up to the decrease in size. -/
theorem C8_termination_monotone_shrink (g : Pkg) (sched : Schedule) (tm : TrafficMap)
    (gi : AppenderGlobalInfo) (ni : AppenderNamespaceInfo)
    (hs : sched.Valid) (hwf : tm.WF) :
    (∀ (i : Nat) (ni0 : AppenderNamespaceInfo) (tm1 : TrafficMap) (k : Nat),
        applyDeadNodes g (sched (2 * i)) (sched (2 * i + 1)) tm ni0 = some (tm1, k) →
          tm1.length + k = tm.length ∧ tm1.length ≤ tm.length) ∧
      (∀ fuel, tm.length < fuel → AppendGraph g sched fuel tm gi ni ≠ .outOfFuel) ∧
      (∀ fuel r, AppendGraph g sched fuel tm gi ni = .returned r →
        r.passes.length ≤ tm.length + 1 ∧
        (∀ k ∈ r.passes.dropLast, 0 < k) ∧
        (∀ k ∈ r.passes.getLast?, k = 0) ∧
        r.trafficMap.length + r.passes.sum = tm.length) := by
  refine ⟨?_, ?_, ?_⟩
  · intro i ni0 tm1 k hp
    rw [applyDeadNodes_eq_pass g (hs _) (hs _) hwf ni0] at hp
    have := (pass_size hp).2
    exact ⟨this, by omega⟩
  · intro fuel hfuel
    rw [AppendGraph_eq g hs fuel hwf gi ni]
    by_cases h0 : tm.length = 0
    · simp [h0]
    · simp only [h0, if_false]
      rcases withWorkloadList gi ni with _ | ni1
      · simp
      · exact prune_fuel g ni1 fuel tm [] hfuel
  · intro fuel r hrun
    rcases AppendGraph_returned g hs hwf hrun with ⟨_, rfl⟩ | ⟨_, ni1, _, hpr⟩
    · simp
    · obtain ⟨ks, h1, h2, h3⟩ := prune_trace g ni1 fuel tm [] r hpr
      have h4 := length_le_sum_of_pos ks h2
      simp only [List.nil_append] at h1
      rw [h1]
      refine ⟨?_, ?_, ?_, ?_⟩
      · simp only [List.length_append, List.length_singleton]
        omega
      · simpa using h2
      · simp
      · simp only [List.sum_append, List.sum_singleton]
        omega

/-- Witness of C8 on the sample map: three nodes, three passes removing 1, 1
and 0 nodes, one node left. -/
theorem C8_termination_monotone_shrink_witness :
    storedSchedule.Valid ∧ sampleMap.WF ∧
      AppendGraph samplePkg storedSchedule 4 sampleMap failingGlobalInfo sampleInfo
        = .returned sampleResult ∧
      sampleResult.passes = [1, 1, 0] ∧
      ((∀ (i : Nat) (ni0 : AppenderNamespaceInfo) (tm1 : TrafficMap) (k : Nat),
        applyDeadNodes samplePkg (storedSchedule (2 * i)) (storedSchedule (2 * i + 1))
            sampleMap ni0 = some (tm1, k) →
          tm1.length + k = sampleMap.length ∧ tm1.length ≤ sampleMap.length) ∧
      (∀ fuel, sampleMap.length < fuel →
        AppendGraph samplePkg storedSchedule fuel sampleMap failingGlobalInfo sampleInfo
          ≠ .outOfFuel) ∧
      (∀ fuel r,
        AppendGraph samplePkg storedSchedule fuel sampleMap failingGlobalInfo sampleInfo
          = .returned r →
        r.passes.length ≤ sampleMap.length + 1 ∧
        (∀ k ∈ r.passes.dropLast, 0 < k) ∧
        (∀ k ∈ r.passes.getLast?, k = 0) ∧
        r.trafficMap.length + r.passes.sum = sampleMap.length)) :=
  ⟨storedSchedule_valid, by decide, by decide, rfl,
    C8_termination_monotone_shrink samplePkg storedSchedule sampleMap failingGlobalInfo
      sampleInfo storedSchedule_valid (by decide)⟩

/-- C9 (determinism of dead-node pruning): for every two valid choices of the
iteration orders, one pass gives the same map and the same count, and
`AppendGraph` ends the same way with the same traffic map, edge lists,
metadata and pass counts, although the first loop deletes from the map it
ranges over. -/
theorem C9_pruning_order_independent (g : Pkg) (sched1 sched2 : Schedule)
    (order1 order2 order3 order4 : Order) (fuel : Nat) (tm : TrafficMap)
    (gi : AppenderGlobalInfo) (ni : AppenderNamespaceInfo)
    (hs1 : sched1.Valid) (hs2 : sched2.Valid)
    (h1 : order1.Valid) (h2 : order2.Valid) (h3 : order3.Valid) (h4 : order4.Valid)
    (hwf : tm.WF) :
    applyDeadNodes g order1 order2 tm ni = applyDeadNodes g order3 order4 tm ni ∧
      AppendGraph g sched1 fuel tm gi ni = AppendGraph g sched2 fuel tm gi ni := by
  constructor
  · rw [applyDeadNodes_eq_pass g h1 h2 hwf ni, applyDeadNodes_eq_pass g h3 h4 hwf ni]
  · rw [AppendGraph_eq g hs1 fuel hwf gi ni, AppendGraph_eq g hs2 fuel hwf gi ni]

/-- Witness of C9 on the sample map: visiting the keys as stored or in reverse
gives the same pass and the same run. -/
theorem C9_pruning_order_independent_witness :
    storedSchedule.Valid ∧ reversedSchedule.Valid ∧ Order.stored.Valid ∧
      Order.reversed.Valid ∧ sampleMap.WF ∧
      (applyDeadNodes samplePkg Order.stored Order.stored sampleMap sampleInfo
          = applyDeadNodes samplePkg Order.reversed Order.reversed sampleMap sampleInfo ∧
        AppendGraph samplePkg storedSchedule 4 sampleMap failingGlobalInfo sampleInfo
          = AppendGraph samplePkg reversedSchedule 4 sampleMap failingGlobalInfo sampleInfo) :=
  ⟨storedSchedule_valid, reversedSchedule_valid, storedSchedule_valid 0,
    reversedSchedule_valid 0, by decide,
    C9_pruning_order_independent samplePkg storedSchedule reversedSchedule Order.stored
      Order.stored Order.reversed Order.reversed 4 sampleMap failingGlobalInfo sampleInfo
      storedSchedule_valid reversedSchedule_valid (storedSchedule_valid 0)
      (storedSchedule_valid 0) (reversedSchedule_valid 0) (reversedSchedule_valid 0)
      (by decide)⟩

/-! ## What a run leaves of the map it was given -/

theorem pass_zero_keys {g : Pkg} {ni : AppenderNamespaceInfo} {tm tm1 : TrafficMap}
    (h : pass g ni tm = some (tm1, 0)) : tm1.keys = tm.keys := by
  rcases pass_cases h with ⟨_, hs⟩ | ⟨hk, _⟩
  · exact sweep_zero_keys hs
  · omega

theorem goodEdges_goodEdges {tm tm1 : TrafficMap} (h : ∀ id ∈ tm1.keys, id ∈ tm.keys)
    (es : List Edge) : goodEdges tm1 (goodEdges tm es) = goodEdges tm1 es := by
  unfold goodEdges
  rw [List.filter_filter]
  apply List.filter_congr
  intro e _
  rw [Bool.eq_iff_iff]
  simp only [Bool.and_eq_true, TrafficMap.isSome_get?_iff]
  exact ⟨fun hh => hh.1, fun hh => ⟨hh, h _ hh⟩⟩

theorem verdict_aggregate {g : Pkg} {ni : AppenderNamespaceInfo} {n : Node} {v : Verdict}
    (hty : n.NodeType = .Aggregate) (h : verdict g ni n = some v) : v = .keep := by
  have hp := verdict_protocolLoop h
  unfold verdict at h
  rw [hp, hty] at h
  cases ht : hasTraffic g n <;> rw [ht] at h <;> simp only [Option.some.injEq] at h <;>
    exact h.symm

theorem verdict_flag_facts {g : Pkg} {ni : AppenderNamespaceInfo} {n : Node}
    (h : verdict g ni n = some .flag) :
    n.NodeType ≠ .Service ∧ getWorkload n.Workload ni ≠ none := by
  have ht : hasTraffic g n = false := by
    cases ht : hasTraffic g n with
    | false => rfl
    | true => exact absurd (verdict_of_traffic ht h) (by decide)
  have hS : n.NodeType ≠ .Service := by
    intro hty
    have hv := verdict_service hty ht h
    split_ifs at hv
  have hA : n.NodeType ≠ .Aggregate := fun hty => absurd (verdict_aggregate hty h) (by decide)
  refine ⟨hS, ?_⟩
  intro hnone
  have hv := verdict_backed hS hA ht h
  rw [hnone] at hv
  split_ifs at hv

theorem remake_self (n : Node) : remake n n.Edges n.Metadata = n := rfl

theorem descends_refl (g : Pkg) (ni : AppenderNamespaceInfo) (tm : TrafficMap) :
    Descends g ni tm tm := by
  refine ⟨List.Sublist.refl _, ?_⟩
  intro id c hget
  refine ⟨c, c.Edges, c.Metadata, hget, (remake_self c).symm, List.Sublist.refl _, ?_, Or.inl rfl⟩
  intro hc
  unfold goodEdges
  symm
  rw [List.filter_eq_self]
  intro e he
  exact hc (id, c) (TrafficMap.mem_of_get? hget) e he

theorem descends_pass {g : Pkg} {ni : AppenderNamespaceInfo} {tm0 tm tm1 : TrafficMap} {k : Nat}
    (hwf : tm.WF) (hD : Descends g ni tm0 tm) (hp : pass g ni tm = some (tm1, k)) :
    Descends g ni tm0 tm1 := by
  have hsub := (pass_size hp).1
  refine ⟨hsub.trans hD.1, ?_⟩
  intro id c1 hg1
  rw [pass_get? hwf hp id] at hg1
  rcases hget : tm.get? id with _ | c
  · rw [hget] at hg1; simp at hg1
  · rw [hget] at hg1
    obtain ⟨n, es, md, h0, hceq, hes, hcons, hmd⟩ := hD.2 id c hget
    have hkeys : ∀ j ∈ tm1.keys, j ∈ tm.keys := fun j hj => hsub.subset hj
    have hedges : EdgesConsistent tm0 →
        (if 0 < k then goodEdges tm1 es else es) = goodEdges tm1 n.Edges := by
      intro hc
      by_cases hk : 0 < k
      · rw [if_pos hk, hcons hc, goodEdges_goodEdges hkeys]
      · rw [if_neg hk, hcons hc]
        have hk0 : k = 0 := by omega
        subst hk0
        exact goodEdges_congr (pass_zero_keys hp).symm n.Edges
    have hsubl : (if 0 < k then goodEdges tm1 es else es).Sublist n.Edges := by
      by_cases hk : 0 < k
      · rw [if_pos hk]
        exact (List.filter_sublist _).trans hes
      · rw [if_neg hk]
        exact hes
    rcases hv : verdict g ni c with _ | v
    · simp [survivor, hv] at hg1
    · cases v with
      | keep =>
        simp only [Option.some_bind, survivor, hv, Option.map_some', Option.some.injEq] at hg1
        refine ⟨n, if 0 < k then goodEdges tm1 es else es, md, h0, ?_, hsubl, hedges, hmd⟩
        rw [← hg1, hceq]
        by_cases hk : 0 < k
        · simp only [hk, if_true]; rfl
        · simp only [hk, if_false]
      | flag =>
        simp only [Option.some_bind, survivor, hv, Option.map_some', Option.some.injEq] at hg1
        obtain ⟨hS, hW⟩ := verdict_flag_facts hv
        rw [hceq] at hS hW
        refine ⟨n, if 0 < k then goodEdges tm1 es else es, md.set g.IsDead (.bool true), h0, ?_,
          hsubl, hedges, ?_⟩
        · rw [← hg1, hceq]
          by_cases hk : 0 < k
          · simp only [hk, if_true]; rfl
          · simp only [hk, if_false]; rfl
        · rcases hmd with hmd | ⟨hmd, _, _⟩
          · exact Or.inr ⟨by rw [hmd], hS, hW⟩
          · exact Or.inr ⟨by rw [hmd, set_set], hS, hW⟩
      | remove =>
        simp [survivor, hv] at hg1

theorem AppendGraph_descends (g : Pkg) {sched : Schedule} (hs : sched.Valid) {fuel : Nat}
    {tm : TrafficMap} (hwf : tm.WF) {gi : AppenderGlobalInfo} {ni : AppenderNamespaceInfo}
    {r : Appended} (hrun : AppendGraph g sched fuel tm gi ni = .returned r)
    (ni1 : AppenderNamespaceInfo) (hni : tm ≠ [] → withWorkloadList gi ni = some ni1) :
    Descends g ni1 tm r.trafficMap := by
  rcases AppendGraph_returned g hs hwf hrun with ⟨_, rfl⟩ | ⟨h0, ni2, hni2, hpr⟩
  · exact descends_refl g ni1 tm
  · have hne : tm ≠ [] := fun h => h0 (by rw [h]; rfl)
    rw [hni hne] at hni2
    simp only [Option.some.injEq] at hni2
    subst hni2
    obtain ⟨_, tmL, hwfL, hDL, hp⟩ :=
      prune_returned g ni1 (Descends g ni1 tm)
        (fun _ _ _ hwf0 hD0 hp0 => descends_pass hwf0 hD0 hp0) fuel tm [] r hwf
        (descends_refl g ni1 tm) hpr
    exact descends_pass hwfL hDL hp

/-- C14 (frame of the Dead-Node Appender): when `AppendGraph` returns, the keys
of the map are a sub-sequence of the initial keys; each surviving node is the
initial node under its key but for its edge list and its metadata; its edge
list is a sub-sequence of the initial one, with the edges themselves (and so
their metadata) unchanged, and, when the input had consistent edges, holds
exactly the initial edges whose destination survived; its metadata is the
initial one or the initial one with the dead flag set to true. On an empty
map `AppendGraph` returns the map and the context as they were, whatever the
workload service would have answered. -/
theorem C14_AppendGraph_frame (g : Pkg) (sched : Schedule) (fuel : Nat) (tm : TrafficMap)
    (gi : AppenderGlobalInfo) (ni : AppenderNamespaceInfo) (r : Appended)
    (hs : sched.Valid) (hwf : tm.WF)
    (hrun : AppendGraph g sched fuel tm gi ni = .returned r) :
    r.trafficMap.keys.Sublist tm.keys ∧
      (∀ id c, r.trafficMap.get? id = some c →
        ∃ n, tm.get? id = some n ∧ c = remake n c.Edges c.Metadata ∧
          c.Edges.Sublist n.Edges ∧
          (EdgesConsistent tm →
            c.Edges = n.Edges.filter (fun e => decide (e.Dest ∈ r.trafficMap.keys))) ∧
          (c.Metadata = n.Metadata ∨ c.Metadata = n.Metadata.set g.IsDead (.bool true))) ∧
      (tm = [] → ∀ gi1 : AppenderGlobalInfo,
        AppendGraph g sched fuel tm gi1 ni = .returned ⟨tm, ni, []⟩) := by
  have hni : ∃ ni1, tm ≠ [] → withWorkloadList gi ni = some ni1 := by
    rcases AppendGraph_returned g hs hwf hrun with ⟨h0, _⟩ | ⟨_, ni2, hni2, _⟩
    · exact ⟨ni, fun h => absurd (List.length_eq_zero.1 h0) h⟩
    · exact ⟨ni2, fun _ => hni2⟩
  obtain ⟨ni1, hni1⟩ := hni
  obtain ⟨hkeys, hnodes⟩ := AppendGraph_descends g hs hwf hrun ni1 hni1
  refine ⟨hkeys, ?_, ?_⟩
  · intro id c hget
    obtain ⟨n, es, md, h0, hceq, hes, hcons, hmd⟩ := hnodes id c hget
    have hE : c.Edges = es := by rw [hceq]; rfl
    have hM : c.Metadata = md := by rw [hceq]; rfl
    refine ⟨n, h0, ?_, ?_, ?_, ?_⟩
    · rw [hE, hM]; exact hceq
    · rw [hE]; exact hes
    · intro hc
      rw [hE, hcons hc]
      unfold goodEdges
      apply List.filter_congr
      intro e _
      rw [Bool.eq_iff_iff, TrafficMap.isSome_get?_iff]
      simp
    · rw [hM]
      rcases hmd with h | ⟨h, _, _⟩
      · exact Or.inl h
      · exact Or.inr h
  · intro hnil gi1
    subst hnil
    rfl

/-- Witness of C14 on the sample map: `a` survives with its metadata and
without its edge to the removed `s`; on the empty map nothing happens, even
with a failing workload service and an empty cache. -/
theorem C14_AppendGraph_frame_witness :
    storedSchedule.Valid ∧ sampleMap.WF ∧
      AppendGraph samplePkg storedSchedule 3 sampleMap failingGlobalInfo sampleInfo
        = .returned sampleResult ∧
      (sampleResult.trafficMap.keys.Sublist sampleMap.keys ∧
        (∀ id c, sampleResult.trafficMap.get? id = some c →
          ∃ n, sampleMap.get? id = some n ∧ c = remake n c.Edges c.Metadata ∧
            c.Edges.Sublist n.Edges ∧
            (EdgesConsistent sampleMap →
              c.Edges
                = n.Edges.filter (fun e => decide (e.Dest ∈ sampleResult.trafficMap.keys))) ∧
            (c.Metadata = n.Metadata ∨
              c.Metadata = n.Metadata.set samplePkg.IsDead (.bool true))) ∧
        (sampleMap = [] → ∀ gi1 : AppenderGlobalInfo,
          AppendGraph samplePkg storedSchedule 3 sampleMap gi1 sampleInfo
            = .returned ⟨sampleMap, sampleInfo, []⟩)) ∧
      AppendGraph samplePkg storedSchedule 0 [] failingGlobalInfo ⟨"ns", none⟩
        = .returned ⟨[], ⟨"ns", none⟩, []⟩ :=
  ⟨storedSchedule_valid, by decide, by decide,
    C14_AppendGraph_frame samplePkg storedSchedule 3 sampleMap failingGlobalInfo sampleInfo
      sampleResult storedSchedule_valid (by decide) (by decide),
    (C14_AppendGraph_frame samplePkg storedSchedule 0 [] failingGlobalInfo ⟨"ns", none⟩
      ⟨[], ⟨"ns", none⟩, []⟩ storedSchedule_valid (by decide) (by decide)).2.2 rfl
      failingGlobalInfo⟩

theorem goodEdges_eq_nil {tm : TrafficMap} {es : List Edge} :
    goodEdges tm es = [] ↔ ∀ e ∈ es, e.Dest ∉ tm.keys := by
  unfold goodEdges
  rw [List.filter_eq_nil_iff]
  constructor
  · intro h e he hin
    exact h e he (TrafficMap.isSome_get?_iff.2 hin)
  · intro h e he hs
    exact h e he (TrafficMap.isSome_get?_iff.1 hs)

theorem remove_iff_removable {g : Pkg} {ni : AppenderNamespaceInfo} {tm : TrafficMap}
    {n : Node} {md : Metadata} {v : Verdict}
    (hmd : md = n.Metadata ∨
      (md = n.Metadata.set g.IsDead (.bool true) ∧ n.NodeType ≠ .Service ∧
        getWorkload n.Workload ni ≠ none))
    (hv : verdict g ni (remake n (goodEdges tm n.Edges) md) = some v) :
    v = .remove ↔ removable g ni tm.keys n := by
  constructor
  · intro hrem
    subst hrem
    have htc : hasTraffic g (remake n (goodEdges tm n.Edges) md) = false := by
      cases ht : hasTraffic g (remake n (goodEdges tm n.Edges) md) with
      | false => rfl
      | true => exact absurd (verdict_of_traffic ht hv) (by decide)
    by_cases hS : n.NodeType = .Service
    · have hmd1 : md = n.Metadata := by
        rcases hmd with h | ⟨_, h, _⟩
        · exact h
        · exact absurd hS h
      subst hmd1
      have hsv := verdict_service (n := remake n (goodEdges tm n.Edges) n.Metadata) hS htc hv
      have hE : ¬ (goodEdges tm n.Edges).length > 0 := by
        intro h
        have h1 : (remake n (goodEdges tm n.Edges) n.Metadata).Edges.length > 0 := h
        rw [if_pos h1] at hsv
        cases hsv
      have hE1 : ¬ (remake n (goodEdges tm n.Edges) n.Metadata).Edges.length > 0 := hE
      rw [if_neg hE1] at hsv
      have hSE : ¬ (n.Metadata.get? g.IsServiceEntry).isSome = true := by
        intro h
        have h1 : ((remake n (goodEdges tm n.Edges) n.Metadata).Metadata.get?
          g.IsServiceEntry).isSome = true := h
        rw [if_pos h1] at hsv
        cases hsv
      have hSE1 : ¬ ((remake n (goodEdges tm n.Edges) n.Metadata).Metadata.get?
          g.IsServiceEntry).isSome = true := hSE
      rw [if_neg hSE1] at hsv
      have hEC : ¬ (n.Metadata.get? g.IsEgressCluster).isSome = true := by
        intro h
        have h1 : ((remake n (goodEdges tm n.Edges) n.Metadata).Metadata.get?
          g.IsEgressCluster).isSome = true := h
        rw [if_pos h1] at hsv
        cases hsv
      refine ⟨htc, Or.inl ⟨hS, ?_, ?_, ?_⟩⟩
      · apply goodEdges_eq_nil.1
        apply List.length_eq_zero.1
        omega
      · simpa using hSE
      · simpa using hEC
    · have hA : n.NodeType ≠ .Aggregate := fun hty =>
        absurd (verdict_aggregate (n := remake n (goodEdges tm n.Edges) md) hty hv) (by decide)
      have hb := verdict_backed (n := remake n (goodEdges tm n.Edges) md) hS hA htc hv
      have hb1 : Verdict.remove =
          (if (n.NodeType != .Unknown && !g.IsOK n.Workload) = true then Verdict.keep
            else
              match getWorkload n.Workload ni with
              | none => Verdict.remove
              | some workload =>
                if workload.PodCount = 0 then Verdict.flag else Verdict.keep) := hb
      by_cases hcond : (n.NodeType != .Unknown && !g.IsOK n.Workload) = true
      · rw [if_pos hcond] at hb1
        cases hb1
      · rw [if_neg hcond] at hb1
        have hnf : getWorkload n.Workload ni = none := by
          rcases hw : getWorkload n.Workload ni with _ | w
          · rfl
          · rw [hw] at hb1
            simp only [] at hb1
            split_ifs at hb1
        have hmd1 : md = n.Metadata := by
          rcases hmd with h | ⟨_, _, h⟩
          · exact h
          · exact absurd hnf h
        subst hmd1
        refine ⟨htc, Or.inr ⟨hA, hS, ?_, hnf⟩⟩
        by_cases hu : n.NodeType = .Unknown
        · exact Or.inl hu
        · right
          cases hok : g.IsOK n.Workload with
          | true => rfl
          | false =>
            exfalso
            apply hcond
            simp [hok, hu]
  · rintro ⟨htn, hcase⟩
    rcases hcase with ⟨hS, hedges, hSE, hEC⟩ | ⟨hA, hS, huok, hnf⟩
    · have hmd1 : md = n.Metadata := by
        rcases hmd with h | ⟨_, h, _⟩
        · exact h
        · exact absurd hS h
      subst hmd1
      have hsv := verdict_service (n := remake n (goodEdges tm n.Edges) n.Metadata) hS htn hv
      have hE : (remake n (goodEdges tm n.Edges) n.Metadata).Edges = [] :=
        goodEdges_eq_nil.2 hedges
      have hSE1 : (remake n (goodEdges tm n.Edges) n.Metadata).Metadata.get? g.IsServiceEntry
          = none := hSE
      have hEC1 : (remake n (goodEdges tm n.Edges) n.Metadata).Metadata.get? g.IsEgressCluster
          = none := hEC
      rw [hE, hSE1, hEC1] at hsv
      simpa using hsv
    · have hmd1 : md = n.Metadata := by
        rcases hmd with h | ⟨_, _, h⟩
        · exact h
        · exact absurd hnf h
      subst hmd1
      have hb := verdict_backed (n := remake n (goodEdges tm n.Edges) n.Metadata) hS hA htn hv
      have hb1 : v =
          (if (n.NodeType != .Unknown && !g.IsOK n.Workload) = true then Verdict.keep
            else
              match getWorkload n.Workload ni with
              | none => Verdict.remove
              | some workload =>
                if workload.PodCount = 0 then Verdict.flag else Verdict.keep) := hb
      have hcond : ¬ (n.NodeType != .Unknown && !g.IsOK n.Workload) = true := by
        rcases huok with hu | hok
        · simp [hu]
        · simp [hok]
      rw [if_neg hcond, hnf] at hb1
      exact hb1

theorem removable_anti {g : Pkg} {ni : AppenderNamespaceInfo} {S T : List String} {n : Node}
    (hST : ∀ id ∈ S, id ∈ T) (h : removable g ni T n) : removable g ni S n := by
  obtain ⟨ht, hcase⟩ := h
  refine ⟨ht, ?_⟩
  rcases hcase with ⟨hS, hedges, hSE, hEC⟩ | hB
  · exact Or.inl ⟨hS, fun e he hin => hedges e he (hST _ hin), hSE, hEC⟩
  · exact Or.inr hB

theorem pass_survives_iff {g : Pkg} {ni : AppenderNamespaceInfo} {tm0 tm tm1 : TrafficMap}
    {k : Nat} (hwf : tm.WF) (hc : EdgesConsistent tm0) (hD : Descends g ni tm0 tm)
    (hp : pass g ni tm = some (tm1, k)) {id : String} {n : Node} (hin : id ∈ tm.keys)
    (h0 : tm0.get? id = some n) :
    id ∈ tm1.keys ↔ ¬ removable g ni tm.keys n := by
  rcases hget : tm.get? id with _ | c
  · exact absurd hin (TrafficMap.get?_eq_none_iff.1 hget)
  · obtain ⟨n1, es, md, h1, hceq, _, hcons, hmd⟩ := hD.2 id c hget
    rw [h0] at h1
    simp only [Option.some.injEq] at h1
    subst h1
    have hes := hcons hc
    subst hes
    obtain ⟨v, hv, hg1⟩ := pass_verdict hwf hp hget
    rw [hceq] at hv hg1
    rw [← remove_iff_removable hmd hv, ← TrafficMap.isSome_get?_iff, hg1]
    cases v <;> simp [survivor, hv]

/-- C13 (greatest-fixed-point characterisation of pruning): for a map with
consistent edges, the keys that `AppendGraph` leaves are among the initial
keys, none of the nodes they name is removable relative to them, and they
contain every set `S` of initial keys none of whose nodes is removable
relative to `S`; in particular a Service node without traffic and without the
two keys, all of whose edges lead to removed nodes, is itself removed. Nodes,
edges and removability are those of the initial map. -/
theorem C13_pruning_greatest_fixed_point (g : Pkg) (sched : Schedule) (fuel : Nat)
    (tm : TrafficMap) (gi : AppenderGlobalInfo) (ni ni1 : AppenderNamespaceInfo) (r : Appended)
    (hs : sched.Valid) (hwf : tm.WF) (hc : EdgesConsistent tm)
    (hni : tm ≠ [] → withWorkloadList gi ni = some ni1)
    (hrun : AppendGraph g sched fuel tm gi ni = .returned r) :
    (∀ id ∈ r.trafficMap.keys, id ∈ tm.keys) ∧
      (∀ id ∈ r.trafficMap.keys, ∀ n, tm.get? id = some n →
        ¬ removable g ni1 r.trafficMap.keys n) ∧
      (∀ S : List String, (∀ id ∈ S, id ∈ tm.keys) →
        (∀ id ∈ S, ∀ n, tm.get? id = some n → ¬ removable g ni1 S n) →
        ∀ id ∈ S, id ∈ r.trafficMap.keys) ∧
      (∀ id n, tm.get? id = some n → n.NodeType = .Service → hasTraffic g n = false →
        n.Metadata.get? g.IsServiceEntry = none → n.Metadata.get? g.IsEgressCluster = none →
        (∀ e ∈ n.Edges, e.Dest ∉ r.trafficMap.keys) → id ∉ r.trafficMap.keys) := by
  have hfix : ∀ id ∈ r.trafficMap.keys, ∀ n, tm.get? id = some n →
      ¬ removable g ni1 r.trafficMap.keys n := by
    rcases AppendGraph_returned g hs hwf hrun with ⟨h0, rfl⟩ | ⟨h0, ni2, hni2, hpr⟩
    · intro id hid
      rw [List.length_eq_zero.1 h0] at hid
      simp [TrafficMap.keys] at hid
    · have hne : tm ≠ [] := fun h => h0 (by rw [h]; rfl)
      rw [hni hne] at hni2
      simp only [Option.some.injEq] at hni2
      subst hni2
      obtain ⟨_, tmL, hwfL, hDL, hp⟩ :=
        prune_returned g ni1 (Descends g ni1 tm)
          (fun _ _ _ hwf0 hD0 hp0 => descends_pass hwf0 hD0 hp0) fuel tm [] r hwf
          (descends_refl g ni1 tm) hpr
      have hk := pass_zero_keys hp
      intro id hid n h0n
      rw [hk] at hid ⊢
      exact (pass_survives_iff hwfL hc hDL hp hid h0n).1 (by rw [hk]; exact hid)
  refine ⟨?_, hfix, ?_, ?_⟩
  · exact fun id hid => (AppendGraph_descends g hs hwf hrun ni1 hni).1.subset hid
  · intro S hS0 hSfix
    rcases AppendGraph_returned g hs hwf hrun with ⟨_, rfl⟩ | ⟨h0, ni2, hni2, hpr⟩
    · exact hS0
    · have hne : tm ≠ [] := fun h => h0 (by rw [h]; rfl)
      rw [hni hne] at hni2
      simp only [Option.some.injEq] at hni2
      subst hni2
      have hstep : ∀ (t t1 : TrafficMap) (k : Nat), t.WF →
          (Descends g ni1 tm t ∧ ∀ id ∈ S, id ∈ t.keys) → pass g ni1 t = some (t1, k) →
          (Descends g ni1 tm t1 ∧ ∀ id ∈ S, id ∈ t1.keys) := by
        intro t t1 k hwf0 hI hp0
        obtain ⟨hD0, hS1⟩ := hI
        refine ⟨descends_pass hwf0 hD0 hp0, ?_⟩
        intro id hid
        have hin := hS1 id hid
        rcases h0n : tm.get? id with _ | n
        · exact absurd (hS0 id hid) (TrafficMap.get?_eq_none_iff.1 h0n)
        · exact (pass_survives_iff hwf0 hc hD0 hp0 hin h0n).2
            (fun hrem => hSfix id hid n h0n (removable_anti hS1 hrem))
      obtain ⟨_, tmL, hwfL, hIL, hp⟩ :=
        prune_returned g ni1 (fun t => Descends g ni1 tm t ∧ ∀ id ∈ S, id ∈ t.keys) hstep
          fuel tm [] r hwf ⟨descends_refl g ni1 tm, hS0⟩ hpr
      exact (hstep tmL r.trafficMap 0 hwfL hIL hp).2
  · intro id n h0n hS ht hSE hEC hedges hid
    exact hfix id hid n h0n ⟨ht, Or.inl ⟨hS, hedges, hSE, hEC⟩⟩

/-- Witness of C13 on the sample map: only `a` is left; the service `s`, whose
only edge leads to the removed `b`, is removed as well. -/
theorem C13_pruning_greatest_fixed_point_witness :
    storedSchedule.Valid ∧ sampleMap.WF ∧ EdgesConsistent sampleMap ∧
      (sampleMap ≠ [] → withWorkloadList failingGlobalInfo sampleInfo = some sampleInfo) ∧
      AppendGraph samplePkg storedSchedule 3 sampleMap failingGlobalInfo sampleInfo
        = .returned sampleResult ∧
      sampleResult.trafficMap.keys = ["a"] ∧
      ((∀ id ∈ sampleResult.trafficMap.keys, id ∈ sampleMap.keys) ∧
      (∀ id ∈ sampleResult.trafficMap.keys, ∀ n, sampleMap.get? id = some n →
        ¬ removable samplePkg sampleInfo sampleResult.trafficMap.keys n) ∧
      (∀ S : List String, (∀ id ∈ S, id ∈ sampleMap.keys) →
        (∀ id ∈ S, ∀ n, sampleMap.get? id = some n → ¬ removable samplePkg sampleInfo S n) →
        ∀ id ∈ S, id ∈ sampleResult.trafficMap.keys) ∧
      (∀ id n, sampleMap.get? id = some n → n.NodeType = .Service →
        hasTraffic samplePkg n = false →
        n.Metadata.get? samplePkg.IsServiceEntry = none →
        n.Metadata.get? samplePkg.IsEgressCluster = none →
        (∀ e ∈ n.Edges, e.Dest ∉ sampleResult.trafficMap.keys) →
        id ∉ sampleResult.trafficMap.keys)) :=
  ⟨storedSchedule_valid, by decide, by decide, fun _ => by decide, by decide, by decide,
    C13_pruning_greatest_fixed_point samplePkg storedSchedule 3 sampleMap failingGlobalInfo
      sampleInfo sampleInfo sampleResult storedSchedule_valid (by decide) (by decide)
      (fun _ => by decide) (by decide)⟩

end appender

namespace business

/-- C10 (error surfacing of the paired create, at the failing input): with a
well-formed body, a handler creation that succeeds and an instance creation
that fails, `CreateThreeScaleHandler` returns neither a handler list nor an
error: the check of `errInstance` returns `errHandler`, which is nil. -/
theorem C10_instance_error_dropped :
    rejectingInstances.Unmarshal "h1" = .ok ⟨"h1", "service-1", "https://example.test", "token"⟩ ∧
      generateJsonHandlerInstance rejectingInstances
          ⟨"h1", "service-1", "https://example.test", "token"⟩
        = .ok ("handler/h1", "instance/threescale-authorization-h1") ∧
      rejectingInstances.CreateIstioObject "adapters" "istio-system" "handlers" "handler/h1"
        = .ok "handler/h1" ∧
      rejectingInstances.CreateIstioObject "templates" "istio-system" "instances"
          "instance/threescale-authorization-h1"
        = .error "instances are rejected" ∧
      CreateThreeScaleHandler rejectingInstances "h1" = (none, none) :=
  ⟨rfl, rfl, rfl, rfl, by decide⟩

/-- C11 (not-found is not an error): `GetThreeScaleInfo` returns the zero info
(disabled) and a nil error when the adapter lookup fails with a not-found
error, the zero info and the lookup error when it fails with any other error,
and the enabled info with the three permissions and a nil error when the
lookup succeeds; so the info is enabled exactly when the lookup succeeds. -/
theorem C11_GetThreeScaleInfo (env : InfoEnv) :
    (∀ e, env.GetAdapter env.conf.IstioNamespace "adapters" env.conf.AdapterName = .error e →
        env.IsNotFound e = true →
        GetThreeScaleInfo env = (⟨false, ⟨false, false, false⟩⟩, none)) ∧
      (∀ e, env.GetAdapter env.conf.IstioNamespace "adapters" env.conf.AdapterName = .error e →
        env.IsNotFound e = false →
        GetThreeScaleInfo env = (⟨false, ⟨false, false, false⟩⟩, some e)) ∧
      (∀ a, env.GetAdapter env.conf.IstioNamespace "adapters" env.conf.AdapterName = .ok a →
        GetThreeScaleInfo env =
          (⟨true, ⟨(env.getPermissions env.conf.IstioNamespace "adapters" "adapters").1,
              (env.getPermissions env.conf.IstioNamespace "adapters" "adapters").2.1,
              (env.getPermissions env.conf.IstioNamespace "adapters" "adapters").2.2⟩⟩,
            none)) ∧
      ((GetThreeScaleInfo env).1.Enabled = true ↔
        ∃ a, env.GetAdapter env.conf.IstioNamespace "adapters" env.conf.AdapterName = .ok a) := by
  unfold GetThreeScaleInfo
  rcases h : env.GetAdapter env.conf.IstioNamespace "adapters" env.conf.AdapterName with e | a
  · refine ⟨?_, ?_, ?_, ?_⟩
    · intro e1 he1 hnf
      cases he1
      simp [hnf]
    · intro e1 he1 hnf
      cases he1
      simp [hnf]
    · intro a ha
      cases ha
    · by_cases hnf : env.IsNotFound e = true <;> simp [hnf]
  · refine ⟨?_, ?_, ?_, ?_⟩
    · intro e1 he1
      cases he1
    · intro e1 he1
      cases he1
    · intro a1 _
      rfl
    · simp

/-- Witness of C11 on the three sample environments: adapter missing, cluster
unreachable, adapter present. -/
theorem C11_GetThreeScaleInfo_witness :
    GetThreeScaleInfo adapterMissing = (⟨false, ⟨false, false, false⟩⟩, none) ∧
      GetThreeScaleInfo adapterUnreachable
        = (⟨false, ⟨false, false, false⟩⟩, some "connection refused") ∧
      GetThreeScaleInfo adapterPresent = (⟨true, ⟨true, true, false⟩⟩, none) :=
  ⟨(C11_GetThreeScaleInfo adapterMissing).1 "adapters threescale not found" rfl (by decide),
    (C11_GetThreeScaleInfo adapterUnreachable).2.1 "connection refused" rfl (by decide),
    (C11_GetThreeScaleInfo adapterPresent).2.2.1 "threescale" rfl⟩

theorem generateJsonHandlerInstance_eq (env : Env) (handler : ThreeScaleHandler) :
    generateJsonHandlerInstance env handler =
      match env.Marshal (newHandler env handler) with
      | .error err => .error err
      | .ok bHandler =>
        match env.Marshal (newInstance env handler) with
        | .error err => .error err
        | .ok bInstance => .ok (bHandler, bInstance) := rfl

/-- C15 (naming consistency of the paired 3scale objects): for every handler
name `h`, the instance object that `generateJsonHandlerInstance` marshals for a
handler named `h`, the instance that `DeleteThreeScaleHandler h` deletes after
the handler, and the instance that the actions of the rule object of
`generateJsonRule` refer to for the handler name `h`, all carry the name
`"threescale-authorization-" ++ h`; and for every namespace `ns` and service
`s`, the rule object that `generateJsonRule` marshals carries the name
`"threescale-" ++ ns ++ "-" ++ s`, which is the name that
`UpdateThreeScaleRule ns s` and `DeleteThreeScaleRule ns s` address. -/
theorem C15_paired_object_names (env : RuleEnv) (h ns s : String) :
    (∀ handler : ThreeScaleHandler, handler.Name = h →
        (newInstance env.toEnv handler).Name = "threescale-authorization-" ++ h ∧
        generateJsonHandlerInstance env.toEnv handler =
          (match env.Marshal (newHandler env.toEnv handler) with
            | .error err => .error err
            | .ok bHandler =>
              match env.Marshal (newInstance env.toEnv handler) with
              | .error err => .error err
              | .ok bInstance => .ok (bHandler, bInstance))) ∧
      (env.DeleteIstioObject (env.resourceTypesToAPI "adapters") env.conf.IstioNamespace
          "handlers" h = none →
        (DeleteThreeScaleHandler env h).2 =
          [Call.delete (env.resourceTypesToAPI "adapters") env.conf.IstioNamespace "handlers" h,
           Call.delete (env.resourceTypesToAPI "templates") env.conf.IstioNamespace "instances"
             ("threescale-authorization-" ++ h)]) ∧
      (∀ rule : ThreeScaleServiceRule, rule.ThreeScaleHandlerName = h →
        actionInstances (newRule env rule) = ["threescale-authorization-" ++ h]) ∧
      (∀ rule : ThreeScaleServiceRule, rule.ServiceNamespace = ns → rule.ServiceName = s →
        (newRule env rule).Name = "threescale-" ++ ns ++ "-" ++ s ∧
        generateJsonRule env rule =
          (match env.Marshal (newRule env rule) with
            | .error err => .error err
            | .ok bRule => .ok bRule)) ∧
      (∀ (body : String) (decoded : ThreeScaleServiceRule) (json : String),
        env.UnmarshalRule body = .ok decoded →
        env.Marshal (newRule env { decoded with ServiceNamespace := ns, ServiceName := s })
          = .ok json →
        (newRule env { decoded with ServiceNamespace := ns, ServiceName := s }).Name
            = "threescale-" ++ ns ++ "-" ++ s ∧
          (UpdateThreeScaleRule env ns s body).2 =
            [Call.update (env.resourceTypesToAPI "rules") env.conf.IstioNamespace "rules"
              ("threescale-" ++ ns ++ "-" ++ s) json]) ∧
      (DeleteThreeScaleRule env ns s).2 =
        [Call.delete (env.resourceTypesToAPI "rules") env.conf.IstioNamespace "rules"
          ("threescale-" ++ ns ++ "-" ++ s)] := by
  refine ⟨?_, ?_, ?_, ?_, ?_, rfl⟩
  · intro handler hn
    subst hn
    exact ⟨rfl, rfl⟩
  · intro hd
    unfold DeleteThreeScaleHandler
    rw [hd]
    simp only []
    cases env.DeleteIstioObject (env.resourceTypesToAPI "templates") env.conf.IstioNamespace
      "instances" ("threescale-authorization-" ++ h) <;> rfl
  · intro rule hr
    subst hr
    simp [actionInstances, newRule, List.lookup]
  · intro rule hns hs
    subst hns
    subst hs
    exact ⟨rfl, rfl⟩
  · intro body decoded json hb hm
    refine ⟨rfl, ?_⟩
    unfold UpdateThreeScaleRule
    rw [hb]
    simp only [generateJsonRule, hm]
    cases env.UpdateIstioObject (env.resourceTypesToAPI "rules") env.conf.IstioNamespace "rules"
      ("threescale-" ++ ns ++ "-" ++ s) json <;> rfl

/-- Witness of C15 in the sample environment, for the handler `h1` and the
service `reviews` of the namespace `bookinfo`. -/
theorem C15_paired_object_names_witness :
    (newInstance acceptingRules.toEnv ⟨"h1", "service-1", "https://example.test", "token"⟩).Name
        = "threescale-authorization-h1" ∧
      (DeleteThreeScaleHandler acceptingRules "h1").2 =
        [Call.delete "adapters" "istio-system" "handlers" "h1",
         Call.delete "templates" "istio-system" "instances" "threescale-authorization-h1"] ∧
      actionInstances (newRule acceptingRules ⟨"reviews", "bookinfo", "reviews", ["v1"], "h1"⟩)
        = ["threescale-authorization-h1"] ∧
      (newRule acceptingRules ⟨"reviews", "bookinfo", "reviews", ["v1"], "h1"⟩).Name
        = "threescale-bookinfo-reviews" ∧
      (UpdateThreeScaleRule acceptingRules "bookinfo" "reviews" "h1").2 =
        [Call.update "rules" "istio-system" "rules" "threescale-bookinfo-reviews"
          "rule/threescale-bookinfo-reviews"] ∧
      (DeleteThreeScaleRule acceptingRules "bookinfo" "reviews").2 =
        [Call.delete "rules" "istio-system" "rules" "threescale-bookinfo-reviews"] :=
  ⟨((C15_paired_object_names acceptingRules "h1" "bookinfo" "reviews").1
      ⟨"h1", "service-1", "https://example.test", "token"⟩ rfl).1,
    (C15_paired_object_names acceptingRules "h1" "bookinfo" "reviews").2.1 rfl,
    (C15_paired_object_names acceptingRules "h1" "bookinfo" "reviews").2.2.1
      ⟨"reviews", "bookinfo", "reviews", ["v1"], "h1"⟩ rfl,
    ((C15_paired_object_names acceptingRules "h1" "bookinfo" "reviews").2.2.2.1
      ⟨"reviews", "bookinfo", "reviews", ["v1"], "h1"⟩ rfl rfl).1,
    ((C15_paired_object_names acceptingRules "h1" "bookinfo" "reviews").2.2.2.2.1 "h1"
      ⟨"svc", "other", "app", ["v1", "v2"], "h1"⟩ "rule/threescale-bookinfo-reviews" rfl rfl).2,
    (C15_paired_object_names acceptingRules "h1" "bookinfo" "reviews").2.2.2.2.2⟩

end business
